import Mathlib

/-!
# Verification of the planner core of `claude-task-master`

Shallow embedding of the planner's domain core:

* `services/planner/app/domain/budget.py` — token estimation, node
  partitioning, edge re-wiring (`plan_budgets`);
* `services/planner/app/domain/ccs.py` — complexity scoring;
* `services/planner/app/domain/coverage.py` — contract-coverage check;
* `services/planner/app/domain/plan_builder.py` — graph assembly;
* `services/planner/app/domain/planner_service.py` — orchestration
  (`create_plan`), modelled up to persistence: the database session is
  external, so persistence is represented by the `Except.ok` payload.

Conventions: Python `str` is `String`; Python word splitting (`str.split()`
with no argument) is `pySplit`; Python non-negative `int` values (list
indices, token counts, capacities) are `Nat`; Python `float` arithmetic in
the scorer and in the capacity computation is modelled as exact rational
arithmetic (`ℚ`), with `round(x, 2)` modelled as round-half-to-even on the
second decimal, matching Python's documented rounding mode.
-/

namespace TaskMaster

/-- The ASCII whitespace set of Python's `str.split()` / `str.strip()`:
space, tab, newline, carriage return, vertical tab, form feed. -/
def pyIsSpace (c : Char) : Bool :=
  c = ' ' || c = '\t' || c = '\n' || c = '\r' || c = '\x0b' || c = '\x0c'

/-- Accumulating word splitter over the character list (the accumulator
holds the current word reversed). -/
def splitWordsAux : List Char → List Char → List String
  | [], acc => if acc = [] then [] else [⟨acc.reverse⟩]
  | c :: cs, acc =>
      if pyIsSpace c then
        if acc = [] then splitWordsAux cs []
        else ⟨acc.reverse⟩ :: splitWordsAux cs []
      else splitWordsAux cs (c :: acc)

/-- Python `str.split()`: splits on runs of whitespace, dropping empty
pieces. -/
def pySplit (s : String) : List String :=
  splitWordsAux s.data []

/-- Python `str.strip()`: removes leading and trailing whitespace. -/
def pyStrip (s : String) : String :=
  ⟨(((s.data.dropWhile pyIsSpace).reverse).dropWhile pyIsSpace).reverse⟩

/-- Python `str.lower()` (ASCII case mapping, which is all the planner's
fixed vocabulary needs). -/
def pyLower (s : String) : String :=
  ⟨s.data.map Char.toLower⟩

/-- `budget.estimate_tokens`: `max(32, int(len(text.split()) * 1.5) + 128)`.
`int(n * 1.5)` on a word count `n` truncates `3n/2`, i.e. `Nat` division. -/
def estimate_tokens (text : String) : Nat :=
  max 32 (3 * (pySplit text).length / 2 + 128)

/-- `persistence.models.NodeDomain`. -/
inductive NodeDomain where
  | db | be | fe | test | package | data_pipeline
  deriving DecidableEq, Repr, Inhabited

/-- An input/output artifact descriptor (Python: a `dict[str, Any]` with
`type`/`description` keys as used by the builders). -/
structure Artifact where
  type_ : String
  description : String
  deriving DecidableEq, Repr, Inhabited

/-- The instruction record of a node.  Python uses `dict[str, Any]`; the
domain code reads and writes the keys `"tasks"`, `"contractOps"` and
`"schemaDefinition"` only, so the record is modelled with those fields
(`schemaDefinition` carries the schema value opaquely as its JSON text). -/
structure Instructions where
  tasks : List String
  contractOps : List String
  schemaDefinition : Option String := none
  deriving DecidableEq, Repr, Inhabited

/-- `types.NodeSpec`. -/
structure NodeSpec where
  domain : NodeDomain
  title : String
  description : String
  instructions : Instructions
  acceptance_criteria : List String
  artifacts_in : List Artifact := []
  artifacts_out : List Artifact := []
  contract_refs : List String := []
  requirements_refs : List String := []
  deriving DecidableEq, Repr, Inhabited

/-- `types.EdgeSpec`: endpoints are positions in the current node list. -/
structure EdgeSpec where
  from_index : Nat
  to_index : Nat
  description : Option String := none
  artifact_type : Option String := none
  deriving DecidableEq, Repr, Inhabited

/-- `types.PlanBuildResult`. -/
structure PlanBuildResult where
  nodes : List NodeSpec
  edges : List EdgeSpec
  deriving Repr

/-- `budget.BudgetResult`. -/
structure BudgetResult where
  budgets : List Nat
  capacity : Nat
  violations : List Nat
  deriving DecidableEq, Repr

/-- `budget.PlanBudgetingResult`. -/
structure PlanBudgetingResult where
  nodes : List NodeSpec
  edges : List EdgeSpec
  budget : BudgetResult
  deriving Repr

/-- The tuning block of `config.PlannerSettings` (the fields the domain
core reads).  `window_headroom_pct` is a float in Python, modelled as `ℚ`;
pydantic constrains it to `[0.05, 0.1]`. -/
structure Tuning where
  window_headroom_pct : ℚ := 1/10
  default_model_window : Nat := 200000
  default_model_class : String := "Class-200K"
  optional_model_class : Option String := some "Class-1M"
  token_budget_floor : Nat := 2000
  deriving Repr

/-- `budget._estimate_node_budget`. -/
def _estimate_node_budget (node : NodeSpec) (floor : Nat) : Nat :=
  max (estimate_tokens node.description
        + 40 * node.instructions.tasks.length
        + 20 * node.acceptance_criteria.length)
      floor

/-- The chunk sizes chosen by `budget._split_sequence`: `total // parts`
each, with the remainder distributed to the first chunks. -/
def chunkSizes (total parts : Nat) : List Nat :=
  (List.range parts).map fun i => total / parts + if i < total % parts then 1 else 0

/-- The slicing loop of `budget._split_sequence`: a chunk of size 0 is
emitted as `[]` without consuming input; otherwise the next `size`
elements are consumed. -/
def takeChunks {α : Type} : List α → List Nat → List (List α)
  | _, [] => []
  | seq, size :: rest =>
      if size = 0 then [] :: takeChunks seq rest
      else seq.take size :: takeChunks (seq.drop size) rest

/-- `budget._split_sequence`. -/
def _split_sequence {α : Type} (seq : List α) (parts : Nat) : List (List α) :=
  if parts = 0 then [[]]
  else takeChunks seq (chunkSizes seq.length parts)

/-- The budget probe inside `budget._fit_words_to_capacity`
(`estimate_with_count`). -/
def estimate_with_count (words : List String) (task_count criteria_count floor : Nat)
    (word_count : Nat) : Nat :=
  max (estimate_tokens (String.intercalate " " (words.take word_count))
        + task_count * 40 + criteria_count * 20)
      floor

/-- The binary-search loop of `budget._fit_words_to_capacity`.  `hi1`
stands for Python's `high + 1`, so the loop condition `low <= high`
becomes `low < hi1`.  The first argument is iteration fuel: every
iteration shrinks `hi1 - low` by at least one, so `hi1 - low + 1` rounds
suffice and the zero-fuel branch is never reached from
`_fit_words_to_capacity`. -/
def fitGo (words : List String) (capacity task_count criteria_count floor : Nat) :
    Nat → Nat → Nat → List String → List String
  | 0, _, _, best => best
  | fuel + 1, low, hi1, best =>
    if low < hi1 then
      let mid := (low + hi1 - 1) / 2
      if estimate_with_count words task_count criteria_count floor mid ≤ capacity then
        fitGo words capacity task_count criteria_count floor fuel (mid + 1) hi1 (words.take mid)
      else
        fitGo words capacity task_count criteria_count floor fuel low mid best
    else best

/-- `budget._fit_words_to_capacity`. -/
def _fit_words_to_capacity (words : List String)
    (capacity task_count criteria_count floor : Nat) : List String :=
  if capacity = 0 then []
  else fitGo words capacity task_count criteria_count floor
    (words.length + 2) 0 (words.length + 1) []

/-- The continuation note of the staged split:
`f"Subtask {idx + 1} of {part_count} continuing {node.title}."`, split into
words. -/
def mainNoteWords (title : String) (idx k : Nat) : List String :=
  pySplit ("Subtask " ++ toString (idx + 1) ++ " of " ++ toString k
            ++ " continuing " ++ title ++ ".")

/-- One part of the staged split in `budget._partition_node` (the body of
the inner `for idx in range(part_count)` loop), returning the part node and
its recomputed budget. -/
def buildPart (node : NodeSpec) (capacity floor : Nat) (summary_words : List String)
    (k idx : Nat) (desc_chunk part_tasks part_criteria : List String) : NodeSpec × Nat :=
  let note_words := if 1 < k then mainNoteWords node.title idx k else []
  let base_words := if desc_chunk ≠ [] then desc_chunk else summary_words
  let words_for_partition := base_words ++ note_words
  let fitted0 := _fit_words_to_capacity words_for_partition capacity
      part_tasks.length part_criteria.length floor
  let fitted_words :=
    if fitted0 = [] ∧ words_for_partition ≠ [] then words_for_partition.take 1 else fitted0
  let part_node : NodeSpec :=
    { node with
      title := node.title ++ " (part " ++ toString (idx + 1) ++ " of " ++ toString k ++ ")"
      description := pyStrip (String.intercalate " " fitted_words)
      instructions := { node.instructions with tasks := part_tasks }
      acceptance_criteria := part_criteria }
  (part_node, _estimate_node_budget part_node floor)

/-- The `for idx in range(part_count)` loop for one candidate part count,
over the list of part indices: `none` when some part exceeds capacity
(Python's `valid = False; break`). -/
def partsLoop (node : NodeSpec) (capacity floor : Nat) (summary_words : List String)
    (k : Nat) (desc_chunks task_chunks criteria_chunks : List (List String)) :
    List Nat → Option (List (NodeSpec × Nat))
  | [] => some []
  | idx :: rest =>
      let pb := buildPart node capacity floor summary_words k idx
          (desc_chunks.getD idx []) (task_chunks.getD idx []) (criteria_chunks.getD idx [])
      if capacity < pb.2 then none
      else
        match partsLoop node capacity floor summary_words k
            desc_chunks task_chunks criteria_chunks rest with
        | none => none
        | some l => some (pb :: l)

/-- One candidate part count of the staged split: chunk the three content
sequences and build every part; succeed only when all parts fit and the
partition is non-empty (`if valid and partitions`). -/
def tryPartCount (node : NodeSpec) (capacity floor : Nat) (summary_words : List String)
    (desc_words tasks acceptance : List String) (k : Nat) :
    Option (List (NodeSpec × Nat)) :=
  let desc_chunks := _split_sequence desc_words k
  let task_chunks := _split_sequence tasks k
  let criteria_chunks := _split_sequence acceptance k
  match partsLoop node capacity floor summary_words k desc_chunks task_chunks criteria_chunks
      (List.range k) with
  | none => none
  | some parts => if parts ≠ [] then some parts else none

/-- The outer `for part_count in range(required_parts, max_parts + 1)`
loop of the staged split, over the list of candidate part counts. -/
def tryCounts (node : NodeSpec) (capacity floor : Nat) (summary_words : List String)
    (desc_words tasks acceptance : List String) : List Nat → Option (List (NodeSpec × Nat))
  | [] => none
  | k :: rest =>
      match tryPartCount node capacity floor summary_words desc_words tasks acceptance k with
      | some parts => some parts
      | none => tryCounts node capacity floor summary_words desc_words tasks acceptance rest

/-- `budget._estimate_budget_from_counts` (probes a budget from counts using
a dummy description of `word_count` copies of `"token"`). -/
def _estimate_budget_from_counts (word_count task_count criteria_count floor : Nat) : Nat :=
  max (estimate_tokens (String.intercalate " " (List.replicate word_count "token"))
        + task_count * 40 + criteria_count * 20)
      floor

/-- State of the greedy fallback loop: the part under construction and the
three remaining queues. -/
structure GreedyState where
  partTasks : List String
  partCriteria : List String
  partWords : List String
  remTasks : List String
  remCriteria : List String
  remWords : List String
  deriving DecidableEq, Repr

/-- Items still unassigned. -/
def GreedyState.remSize (st : GreedyState) : Nat :=
  st.remTasks.length + st.remCriteria.length + st.remWords.length

/-- Items already in the part under construction. -/
def GreedyState.partSize (st : GreedyState) : Nat :=
  st.partTasks.length + st.partCriteria.length + st.partWords.length

/-- The task move of one `while changed` pass of the greedy fallback. -/
def stepTask (capacity floor : Nat) (st : GreedyState) : GreedyState × Bool :=
  match st.remTasks with
  | [] => (st, false)
  | t :: rest =>
      if _estimate_budget_from_counts st.partWords.length (st.partTasks.length + 1)
          st.partCriteria.length floor ≤ capacity then
        ({ st with partTasks := st.partTasks ++ [t], remTasks := rest }, true)
      else (st, false)

/-- The acceptance-criterion move of one pass. -/
def stepCriterion (capacity floor : Nat) (st : GreedyState) : GreedyState × Bool :=
  match st.remCriteria with
  | [] => (st, false)
  | c :: rest =>
      if _estimate_budget_from_counts st.partWords.length st.partTasks.length
          (st.partCriteria.length + 1) floor ≤ capacity then
        ({ st with partCriteria := st.partCriteria ++ [c], remCriteria := rest }, true)
      else (st, false)

/-- The description-word move of one pass. -/
def stepWord (capacity floor : Nat) (st : GreedyState) : GreedyState × Bool :=
  match st.remWords with
  | [] => (st, false)
  | w :: rest =>
      if _estimate_budget_from_counts (st.partWords.length + 1) st.partTasks.length
          st.partCriteria.length floor ≤ capacity then
        ({ st with partWords := st.partWords ++ [w], remWords := rest }, true)
      else (st, false)

/-- One full pass of the `while changed` loop: try a task, then a
criterion, then a word, in that order, reporting whether anything moved. -/
def greedyPass (capacity floor : Nat) (st : GreedyState) : GreedyState × Bool :=
  let p1 := stepTask capacity floor st
  let p2 := stepCriterion capacity floor p1.1
  let p3 := stepWord capacity floor p2.1
  (p3.1, p1.2 || p2.2 || p3.2)

/-- The `while changed` loop of the greedy fallback.  The first argument
is iteration fuel: every pass that reports a change moves at least one
item out of the remaining queues, so `remSize + 1` passes suffice and the
zero-fuel branch is never reached from `greedyOuter`. -/
def greedyInner (capacity floor : Nat) : Nat → GreedyState → GreedyState
  | 0, st => st
  | fuel + 1, st =>
      let p := greedyPass capacity floor st
      if p.2 then greedyInner capacity floor fuel p.1 else p.1

/-- The continuation note of the fallback:
`f"Subtask {part_index} of partition for {node.title}."`, split into
words. -/
def fallbackNote (title : String) (part_index : Nat) : List String :=
  pySplit ("Subtask " ++ toString part_index ++ " of partition for " ++ title ++ ".")

/-- Construction of one fallback part (the tail of the outer `while` body);
the recorded budget is capped at capacity: `min(part_budget, capacity)`. -/
def mkFallbackPart (node : NodeSpec) (capacity floor : Nat) (summary_words : List String)
    (part_index : Nat) (st : GreedyState) : NodeSpec × Nat :=
  let description_words :=
    (if st.partWords ≠ [] then st.partWords else summary_words)
      ++ fallbackNote node.title part_index
  let fitted := _fit_words_to_capacity description_words capacity
      st.partTasks.length st.partCriteria.length floor
  let part_node : NodeSpec :=
    { node with
      title := node.title ++ " (part " ++ toString part_index ++ ")"
      description := pyStrip (String.intercalate " " fitted)
      instructions := { node.instructions with tasks := st.partTasks }
      acceptance_criteria := st.partCriteria }
  (part_node, min (_estimate_node_budget part_node floor) capacity)

/-- The outer `while remaining_tasks or remaining_criteria or
remaining_words` loop of the greedy fallback; stops (dropping the
remainder) when a freshly opened part cannot accept any item.  The first
argument is iteration fuel: every emitted part holds at least one item
taken from the remaining queues, so `remaining + 1` rounds suffice and the
zero-fuel branch is never reached from `_partition_node`. -/
def greedyOuter (node : NodeSpec) (capacity floor : Nat) (summary_words : List String) :
    Nat → List String → List String → List String → Nat → List (NodeSpec × Nat)
  | 0, _, _, _, _ => []
  | fuel + 1, remTasks, remCriteria, remWords, part_index =>
      if remTasks = [] ∧ remCriteria = [] ∧ remWords = [] then []
      else
        let st := greedyInner capacity floor
          (remTasks.length + remCriteria.length + remWords.length + 1)
          ⟨[], [], [], remTasks, remCriteria, remWords⟩
        if st.partTasks = [] ∧ st.partCriteria = [] ∧ st.partWords = [] then []
        else
          mkFallbackPart node capacity floor summary_words (part_index + 1) st
            :: greedyOuter node capacity floor summary_words fuel
                st.remTasks st.remCriteria st.remWords (part_index + 1)

/-- `required_parts = max(2, ceil(base_budget / capacity))` in
`budget._partition_node`; `math.ceil(base_budget / capacity)` is exact
ceiling division (`capacity` is positive whenever the splitting branch is
reached with sensible configuration; Python would raise on 0). -/
def requiredParts (base_budget capacity : Nat) : Nat :=
  max 2 ((base_budget + capacity - 1) / capacity)

/-- `max_parts` in `budget._partition_node`. -/
def maxParts (required_parts task_count criteria_count word_count : Nat) : Nat :=
  min 128 (max (required_parts * 2)
    (max (if task_count ≠ 0 ∨ criteria_count ≠ 0 then task_count + criteria_count
          else required_parts)
         (if word_count ≠ 0 then word_count else required_parts)))

/-- `summary_words = desc_words[: min(len(desc_words), 40)] if desc_words
else []`. -/
def summaryWords (desc_words : List String) : List String :=
  if desc_words ≠ [] then desc_words.take (min desc_words.length 40) else []

/-- The staged multi-way split of `budget._partition_node` (the `for
part_count in range(required_parts, max_parts + 1)` search), `none` when no
part count up to `max_parts` yields an all-within-capacity partition. -/
def stagedSplitResult (node : NodeSpec) (capacity floor : Nat) :
    Option (List (NodeSpec × Nat)) :=
  let base_budget := _estimate_node_budget node floor
  let tasks := node.instructions.tasks
  let acceptance := node.acceptance_criteria
  let desc_words := pySplit node.description
  let required_parts := requiredParts base_budget capacity
  let max_parts := maxParts required_parts tasks.length acceptance.length desc_words.length
  tryCounts node capacity floor (summaryWords desc_words) desc_words tasks acceptance
    (List.range' required_parts (max_parts + 1 - required_parts))

/-- `budget._partition_node`. -/
def _partition_node (node : NodeSpec) (capacity floor : Nat) : List (NodeSpec × Nat) :=
  let base_budget := _estimate_node_budget node floor
  if base_budget ≤ capacity then [(node, base_budget)]
  else
    match stagedSplitResult node capacity floor with
    | some parts => parts
    | none =>
        let fallback := greedyOuter node capacity floor
          (summaryWords (pySplit node.description))
          (node.instructions.tasks.length + node.acceptance_criteria.length
            + (pySplit node.description).length + 1)
          node.instructions.tasks node.acceptance_criteria (pySplit node.description) 0
        if fallback = [] then [(node, min base_budget capacity)] else fallback

/-- `budget._rewire_edges`.  The mapping is the Python dict keyed by the
original indices `0, 1, …` in insertion order, so it is a list indexed by
original node index.  An absent key (`get?` = `none`, out of range) and an
empty partition list both skip the edge (`if not from_indices or not
to_indices`). -/
def _rewire_edges (edges : List EdgeSpec) (mapping : List (List Nat))
    (original_nodes : List NodeSpec) (_new_nodes : List NodeSpec) : List EdgeSpec :=
  let cross := edges.filterMap fun edge =>
    match mapping.get? edge.from_index, mapping.get? edge.to_index with
    | some from_indices, some to_indices =>
        if from_indices = [] ∨ to_indices = [] then none
        else some { from_index := from_indices.getLastD 0, to_index := to_indices.headD 0,
                    description := edge.description, artifact_type := edge.artifact_type }
    | _, _ => none
  let seqs := (mapping.enum.map fun p =>
    if p.2.length ≤ 1 then []
    else (p.2.zip p.2.tail).map fun cn =>
      ({ from_index := cn.1, to_index := cn.2,
         description := some ("Partition order for "
           ++ (original_nodes.getD p.1 default).title),
         artifact_type := none } : EdgeSpec)).join
  cross ++ seqs

/-- The accumulation loop of `budget.plan_budgets`: concatenates the
partitions into the new node and budget lists and records, per original
index, the contiguous range of new indices. -/
def accumulateParts : List (List (NodeSpec × Nat)) → Nat →
    List NodeSpec × List Nat × List (List Nat)
  | [], _ => ([], [], [])
  | p :: rest, start =>
      let res := accumulateParts rest (start + p.length)
      (p.map Prod.fst ++ res.1, p.map Prod.snd ++ res.2.1,
        ((List.range p.length).map (· + start)) :: res.2.2)

/-- `capacity = int(settings.tuning.default_model_window * (1 -
settings.tuning.window_headroom_pct))`; non-negative for the pydantic-legal
headroom range, where `int` truncation coincides with the floor. -/
def planCapacity (t : Tuning) : Nat :=
  (Int.floor ((t.default_model_window : ℚ) * (1 - t.window_headroom_pct))).toNat

/-- The body of `budget.plan_budgets` after the two configuration reads
(capacity and floor as explicit values). -/
def plan_budgets_core (capacity token_floor : Nat) (nodes : List NodeSpec)
    (edges : List EdgeSpec) : PlanBudgetingResult :=
  let partitions_per_node := nodes.map fun node => _partition_node node capacity token_floor
  let acc := accumulateParts partitions_per_node 0
  let violations := (acc.2.1.enum.filter fun ib => capacity < ib.2).map Prod.fst
  { nodes := acc.1
    edges := _rewire_edges edges acc.2.2 nodes acc.1
    budget := { budgets := acc.2.1, capacity := capacity, violations := violations } }

/-- `budget.plan_budgets` (the ambient `get_settings()` is passed
explicitly; the orchestrator calls it with `edges = []`). -/
def plan_budgets (tuning : Tuning) (nodes : List NodeSpec) (edges : List EdgeSpec) :
    PlanBudgetingResult :=
  plan_budgets_core (planCapacity tuning) tuning.token_budget_floor nodes edges

/-! ## Complexity scorer (`ccs.py`) -/

/-- Python's `pat in s` substring test. -/
def strContains (s pat : String) : Bool :=
  (List.range (s.data.length + 1)).any fun i => pat.data.isPrefixOf (s.data.drop i)

/-- Round-half-to-even to an integer (the rounding mode of Python's
`round`), on exact rationals. -/
def roundHalfEven (x : ℚ) : ℤ :=
  let n := ⌊x⌋
  let f := x - n
  if f < 1/2 then n
  else if 1/2 < f then n + 1
  else if 2 ∣ n then n else n + 1

/-- Python `round(x, 2)` on exact rationals. -/
def pyRound2 (x : ℚ) : ℚ := (roundHalfEven (100 * x) : ℚ) / 100

/-- `ccs.ComplexityBreakdown` (feature fields hold the rounded
percentages, as stored by `compute_complexity`). -/
structure ComplexityBreakdown where
  node_index : Nat
  d : ℚ
  s : ℚ
  n : ℚ
  a : ℚ
  r : ℚ
  ccs : ℚ
  recommended_subtasks : ℤ
  confidence : ℚ
  model_class : String
  deriving DecidableEq, Repr, Inhabited

/-- `ccs._score_components`.  `len(set(tasks))` is the number of distinct
task strings; `x or 0.1` yields `0.1` exactly when the quotient is zero. -/
def _score_components (node : NodeSpec) (in_degree out_degree : Nat) :
    ℚ × ℚ × ℚ × ℚ × ℚ :=
  let tasks := node.instructions.tasks
  let contract_refs := node.instructions.contractOps
  let d := min 1 (((in_degree : ℚ) + out_degree + contract_refs.length) / 6)
  let s := min 1 (((tasks.length : ℚ) + node.acceptance_criteria.length) / 8)
  let distinct := tasks.dedup.length
  let n := min 1 (if distinct = 0 then (1/10 : ℚ) else (distinct : ℚ) / 6)
  let a := min 1 (((contract_refs.length : ℚ) + node.requirements_refs.length) / 6)
  let r : ℚ := if tasks.any (fun step => strContains (pyLower step) "research") then 2/5 else 1/10
  (d, s, n, a, r)

/-- In-degree of node `i` (the Python counting loop; out-of-range edge
endpoints would raise in Python). -/
def inDegree (edges : List EdgeSpec) (i : Nat) : Nat :=
  (edges.filter fun e => e.to_index = i).length

/-- Out-degree of node `i`. -/
def outDegree (edges : List EdgeSpec) (i : Nat) : Nat :=
  (edges.filter fun e => e.from_index = i).length

/-- `ccs.compute_complexity` (settings passed explicitly; float arithmetic
modelled as exact rationals). -/
def compute_complexity (tuning : Tuning) (nodes : List NodeSpec) (edges : List EdgeSpec) :
    List ComplexityBreakdown :=
  nodes.enum.map fun p =>
    let idx := p.1
    let c := _score_components p.2 (inDegree edges idx) (outDegree edges idx)
    let weighted := 3/10 * c.1 + 1/5 * c.2.1 + 1/5 * c.2.2.1 + 3/20 * c.2.2.2.1 + 3/20 * c.2.2.2.2
    let ccs := pyRound2 (weighted * 100)
    let model_class := match tuning.optional_model_class with
      | some cls => if 81 ≤ ccs then cls else tuning.default_model_class
      | none => tuning.default_model_class
    { node_index := idx
      d := pyRound2 (c.1 * 100), s := pyRound2 (c.2.1 * 100), n := pyRound2 (c.2.2.1 * 100)
      a := pyRound2 (c.2.2.2.1 * 100), r := pyRound2 (c.2.2.2.2 * 100)
      ccs := ccs
      recommended_subtasks := max 1 ⌈ccs / 15⌉
      confidence := max (1/2) (pyRound2 (1 - ccs / 200))
      model_class := model_class }

/-! ## Coverage checker (`coverage.py`) -/

/-- `ingest.Operation`. -/
structure Operation where
  path : String
  method : String
  operation_id : String
  summary : String
  tags : List String
  deriving DecidableEq, Repr, Inhabited

/-- `coverage.CoverageResult`. -/
structure CoverageResult where
  total_operations : Nat
  covered_operations : Nat
  missing_operations : List String
  deriving DecidableEq, Repr

/-- Lexicographic code-point comparison of character lists (Python's
string `<=`: compare code points position by position). -/
def pyStrLeList : List Char → List Char → Bool
  | [], _ => true
  | _ :: _, [] => false
  | a :: as, b :: bs =>
      if a.toNat < b.toNat then true
      else if b.toNat < a.toNat then false
      else pyStrLeList as bs

/-- Python string `<=` (code-point lexicographic order). -/
def pyStrLe (a b : String) : Bool :=
  pyStrLeList a.data b.data

/-- Insertion of a string into a sorted list (code-point order, as Python
`sorted` on `str`). -/
def insertStr (x : String) : List String → List String
  | [] => [x]
  | y :: ys => if pyStrLe x y then x :: y :: ys else y :: insertStr x ys

/-- Sorting a list of strings; on distinct elements this agrees with any
sorting algorithm, in particular Python's `sorted` applied to a set. -/
def sortStrings : List String → List String
  | [] => []
  | x :: xs => insertStr x (sortStrings xs)

/-- `coverage.compute_coverage`: Python sets are modelled by deduplicated
lists; `sorted(all_ops - covered)` is the sort of the filtered
deduplicated id list. -/
def compute_coverage (operations : List Operation) (covered_operation_ids : List String) :
    CoverageResult :=
  let all_ops := (operations.map (·.operation_id)).dedup
  let missing := sortStrings (all_ops.filter fun opId => ¬ covered_operation_ids.contains opId)
  { total_operations := all_ops.length
    covered_operations := all_ops.length - missing.length
    missing_operations := missing }

/-! ## Graph assembler (`plan_builder.py`, with the phase builders of
`deps_db.py`, `deps_be.py`, `deps_fe.py`) -/

/-- `ingest.PRDArtifact`. -/
structure PRDArtifact where
  text : String
  headings : List String
  glossary : List String
  constraints : List String
  has_ui : Bool
  deriving Repr

/-- `ingest.ContractArtifact` (`raw` and the schema values are opaque JSON
payloads carried as text; `schemas` is an insertion-ordered dict). -/
structure ContractArtifact where
  raw : String
  operations : List Operation
  schemas : List (String × String)
  hash : String
  deriving Repr

/-- `ingest.IngestionResult`. -/
structure IngestionResult where
  prd : PRDArtifact
  contract : ContractArtifact
  deriving Repr

/-- JSON string escaping as in `json.dumps` (quote, backslash and the
common control characters; other characters are carried verbatim). -/
def jsonEscapeChar (c : Char) : String :=
  if c = '"' then "\\\"" else if c = '\\' then "\\\\"
  else if c = '\n' then "\\n" else if c = '\t' then "\\t" else if c = '\r' then "\\r"
  else String.singleton c

/-- `json.dumps` of a string. -/
def pyJsonStr (s : String) : String :=
  "\"" ++ String.join (s.data.map jsonEscapeChar) ++ "\""

/-- `json.dumps(op.__dict__)` for an `Operation` (field order is the
dataclass declaration order). -/
def opJson (op : Operation) : String :=
  "\x7b\"path\": " ++ pyJsonStr op.path ++ ", \"method\": " ++ pyJsonStr op.method
    ++ ", \"operation_id\": " ++ pyJsonStr op.operation_id
    ++ ", \"summary\": " ++ pyJsonStr op.summary
    ++ ", \"tags\": [" ++ String.intercalate ", " (op.tags.map pyJsonStr) ++ "]\x7d"

/-- `deps_db.build_db_nodes`. -/
def build_db_nodes (contract : ContractArtifact) : List NodeSpec :=
  contract.schemas.map fun ns =>
    { domain := .db
      title := "Design and migrate " ++ ns.1 ++ " table"
      description := "Create migrations and data model for " ++ ns.1 ++ "."
      instructions :=
        { schemaDefinition := some ns.2
          contractOps := ((contract.operations.filter fun op =>
              strContains (pyLower (opJson op)) (pyLower ns.1)).map (·.operation_id))
          tasks := ["Define table columns and constraints",
                    "Create migration scripts with reversible operations",
                    "Document seed data requirements if any"] }
      acceptance_criteria :=
        ["Postgres migration covering " ++ ns.1 ++ " entity is generated",
         "Unit tests cover migration up/down",
         "Context Card emitted summarizing schema"]
      contract_refs := ["schema:" ++ ns.1] }

/-- The first-seen insertion-order grouping of operations by leading tag
(`defaultdict` + dict iteration order in `deps_be.build_backend_nodes`). -/
def groupByTag (ops : List Operation) : List (String × List Operation) :=
  ops.foldl (fun acc op =>
    let tag := op.tags.headD "default"
    if acc.any (·.1 = tag) then
      acc.map fun p => if p.1 = tag then (p.1, p.2 ++ [op]) else p
    else acc ++ [(tag, [op])]) []

/-- `deps_be.build_backend_nodes`. -/
def build_backend_nodes (contract : ContractArtifact) : List NodeSpec :=
  (groupByTag contract.operations).map fun p =>
    let op_ids := p.2.map (·.operation_id)
    { domain := .be
      title := "Implement backend handlers for " ++ p.1
      description := "Implement API handlers covering operations: "
        ++ String.intercalate ", " op_ids
      instructions :=
        { contractOps := op_ids
          tasks := ["Implement FastAPI route handlers aligned with contract",
                    "Integrate with database models and validations",
                    "Emit Context Cards upon completion"] }
      acceptance_criteria :=
        ["All endpoints return contract-compliant schemas",
         "Unit tests cover success and error paths",
         "Token budget respected with context reuse"]
      contract_refs := op_ids.map ("operation:" ++ ·) }

/-- `deps_fe.UI_BASE_TASKS`. -/
def UI_BASE_TASKS : List String :=
  ["Establish design system primitives",
   "Implement API client bound to contract schemas",
   "Ensure layout covers responsive breakpoints"]

/-- `deps_fe.build_frontend_nodes` (`op.summary or op.operation_id` falls
back on the id when the summary is empty). -/
def build_frontend_nodes (contract : ContractArtifact) : List NodeSpec :=
  if contract.operations = [] then []
  else
    { domain := .fe
      title := "Create shared frontend foundation"
      description := "Set up design system, routing shell, and API client"
      instructions := { tasks := UI_BASE_TASKS
                        contractOps := contract.operations.map (·.operation_id) }
      acceptance_criteria :=
        ["Design tokens defined",
         "API client generated from contract",
         "Context card summarizing FE primitives emitted"] }
    :: contract.operations.map fun op =>
      { domain := .fe
        title := "Build UI flow for " ++ op.operation_id
        description := "Implement UI to surface "
          ++ (if op.summary ≠ "" then op.summary else op.operation_id)
        instructions :=
          { contractOps := [op.operation_id]
            tasks := ["Create route + view",
                      "Integrate API client with optimistic states",
                      "Instrument analytics hooks"] }
        acceptance_criteria :=
          ["UI renders contract-backed data",
           "Error and loading states covered",
           "Accessibility checklist satisfied"]
        contract_refs := ["operation:" ++ op.operation_id] }

/-- `plan_builder.build_plan`. -/
def build_plan (ingestion : IngestionResult) : PlanBuildResult :=
  let repo_node : NodeSpec :=
    { domain := .package
      title := "Request: provision repository scaffold"
      description := "Request infra to prepare Git repository scaffold with CI/CD hooks and base directories."
      instructions :=
        { tasks := ["Provision repository with FastAPI service skeleton",
                    "Set up infrastructure IaC directories",
                    "Bootstrap Alembic migrations and Dockerfiles"]
          contractOps := [] }
      acceptance_criteria :=
        ["Repository skeleton ready with FastAPI app",
         "Continuous integration pipeline stub available",
         "Secrets placeholders documented"]
      artifacts_out := [{ type_ := "repo-scaffold", description := "Repository template request" }] }
  let db_nodes := build_db_nodes ingestion.contract
  let db_start := 1
  let edges1 := (List.range db_nodes.length).map fun offset =>
    ({ from_index := 0, to_index := db_start + offset,
       description := some "Repo ready" } : EdgeSpec)
  let backend_nodes := build_backend_nodes ingestion.contract
  let be_start := db_start + db_nodes.length
  let edges2 := ((List.range backend_nodes.length).map fun offset =>
    (List.range db_nodes.length).map fun dbo =>
      ({ from_index := db_start + dbo, to_index := be_start + offset,
         description := some "DB schema available" } : EdgeSpec)).join
  let fe_nodes := if ingestion.prd.has_ui then build_frontend_nodes ingestion.contract else []
  let fe_start := be_start + backend_nodes.length
  let edges3 := if ingestion.prd.has_ui then
      ((List.range fe_nodes.length).map fun offset =>
        (List.range backend_nodes.length).map fun beo =>
          ({ from_index := be_start + beo, to_index := fe_start + offset,
             description := some "API ready" } : EdgeSpec)).join
    else []
  let test_node : NodeSpec :=
    { domain := .test
      title := "Construct integration and contract tests"
      description := "Author integration tests ensuring API and data contract coverage with regression hooks."
      instructions :=
        { tasks := ["Generate contract conformance tests",
                    "Create end-to-end scenarios across domains",
                    "Produce coverage diff artifact"]
          contractOps := ingestion.contract.operations.map (·.operation_id) }
      acceptance_criteria :=
        ["100% contract operations exercised",
         "Regression matrix documented",
         "Test artifacts stored with hash references"] }
  let test_idx := fe_start + fe_nodes.length
  let edges4 := (List.range backend_nodes.length).map fun beo =>
    ({ from_index := be_start + beo, to_index := test_idx,
       description := some "Backend complete" } : EdgeSpec)
  let edges5 := if fe_nodes ≠ [] then
      (List.range fe_nodes.length).map fun feo =>
        ({ from_index := fe_start + feo, to_index := test_idx,
           description := some "UI ready" } : EdgeSpec)
    else []
  let edges6 := (List.range db_nodes.length).map fun dbo =>
    ({ from_index := db_start + dbo, to_index := test_idx,
       description := some "DB migrations ready" } : EdgeSpec)
  let package_node : NodeSpec :=
    { domain := .package
      title := "Finalize deployment package"
      description := "Assemble deployment manifests, Helm chart updates, and release plan with rollback procedures."
      instructions :=
        { tasks := ["Produce Helm values and Terraform diffs",
                    "Update OTEL + metrics dashboards",
                    "Document release readiness and runbooks"]
          contractOps := [] }
      acceptance_criteria :=
        ["Deployment artifacts content-hashed and stored",
         "Operational readiness checklist signed",
         "Audit log entry generated with correlation ID"] }
  let package_idx := test_idx + 1
  let edges7 := [({ from_index := test_idx, to_index := package_idx,
                    description := some "Tests green" } : EdgeSpec)]
  { nodes := repo_node :: (db_nodes ++ backend_nodes ++ fe_nodes ++ [test_node, package_node])
    edges := edges1 ++ edges2 ++ edges3 ++ edges4 ++ edges5 ++ edges6 ++ edges7 }

/-! ## Orchestrator (`planner_service.PlannerOrchestrator.create_plan`)

The PRD-and-contract synthesis (`ingest`) is the external façade, so the
orchestrator is modelled from the façade's output (`IngestionResult`)
onwards; the database session and artifact storage are external, and the
data handed to them is carried in the `Except.ok` payload (nothing is
persisted on the error path, which is taken before any session writes). -/

/-- The persisted outcome of a successful `create_plan` call. -/
structure CreatedPlan where
  budget : PlanBudgetingResult
  complexities : List ComplexityBreakdown
  coverage : CoverageResult
  persisted_nodes : List NodeSpec
  persisted_edges : List EdgeSpec
  persisted_token_budgets : List Nat
  token_cost : Nat
  score : ℚ
  deriving Repr

/-- `PlannerOrchestrator.create_plan` from the ingestion result on: note
that the partitioner is invoked as `plan_budgets(build.nodes)` (no edges),
that the scorer is invoked on `build.nodes, build.edges`, and that
`_persist_nodes` / `_persist_edges` iterate `build.nodes` / `build.edges`.
The raised `ValueError` message interpolates the missing list (element
quoting of the Python list repr is not reproduced). -/
def create_plan (tuning : Tuning) (ingestion : IngestionResult) :
    Except String CreatedPlan :=
  let build := build_plan ingestion
  let budget := plan_budgets tuning build.nodes []
  let complexities := compute_complexity tuning build.nodes build.edges
  let covered_ops := (build.nodes.map fun node => node.instructions.contractOps).join
  let coverage := compute_coverage ingestion.contract.operations covered_ops
  if coverage.missing_operations ≠ [] then
    Except.error ("Missing contract coverage: ["
      ++ String.intercalate ", " coverage.missing_operations ++ "]")
  else
    Except.ok
      { budget := budget
        complexities := complexities
        coverage := coverage
        persisted_nodes := build.nodes
        persisted_edges := build.edges
        persisted_token_budgets :=
          (List.range build.nodes.length).map fun idx => budget.budget.budgets.getD idx 0
        token_cost := budget.budget.budgets.sum
        score := ((complexities.map (·.ccs)).sum) / max (complexities.length : ℚ) 1 }

/-! ## General lemmas about the partitioner -/

theorem chunkSizes_length (total parts : Nat) : (chunkSizes total parts).length = parts := by
  simp [chunkSizes]

theorem range_map_add_ite_sum (p b r : Nat) :
    ((List.range p).map fun i => b + if i < r then 1 else 0).sum = p * b + min p r := by
  induction p with
  | zero => simp
  | succ q ih =>
      rw [List.range_succ, List.map_append, List.sum_append]
      simp only [List.map_cons, List.map_nil, List.sum_cons, List.sum_nil, ih]
      have hmul : (q + 1) * b = q * b + b := by ring
      by_cases hq : q < r <;> simp [hq] <;> omega

theorem chunkSizes_sum (total parts : Nat) (h : parts ≠ 0) :
    (chunkSizes total parts).sum = total := by
  unfold chunkSizes
  rw [range_map_add_ite_sum]
  have hmod : total % parts < parts := Nat.mod_lt _ (by omega)
  have : min parts (total % parts) = total % parts := by omega
  rw [this]
  exact Nat.div_add_mod total parts

theorem takeChunks_length {α : Type} (seq : List α) (sizes : List Nat) :
    (takeChunks seq sizes).length = sizes.length := by
  induction sizes generalizing seq with
  | nil => simp [takeChunks]
  | cons s rest ih =>
      unfold takeChunks
      by_cases hs : s = 0 <;> simp [hs, ih]

theorem takeChunks_join {α : Type} (seq : List α) (sizes : List Nat) :
    (takeChunks seq sizes).join = seq.take sizes.sum := by
  induction sizes generalizing seq with
  | nil => simp [takeChunks]
  | cons s rest ih =>
      unfold takeChunks
      by_cases hs : s = 0
      · simp [hs, ih]
      · simp [hs, ih, List.take_add]

theorem split_sequence_length {α : Type} (seq : List α) (parts : Nat) (h : parts ≠ 0) :
    (_split_sequence seq parts).length = parts := by
  unfold _split_sequence
  rw [if_neg h, takeChunks_length, chunkSizes_length]

theorem split_sequence_join {α : Type} (seq : List α) (parts : Nat) (h : parts ≠ 0) :
    (_split_sequence seq parts).join = seq := by
  unfold _split_sequence
  rw [if_neg h, takeChunks_join, chunkSizes_sum _ _ h, List.take_length]

theorem range_map_getD {α : Type} (l : List α) (d : α) (n : Nat) (h : l.length = n) :
    (List.range n).map (fun i => l.getD i d) = l := by
  subst h
  apply List.ext_getElem
  · simp
  · intro i h1 h2
    simp only [List.getElem_map, List.getElem_range]
    simp only [List.length_map, List.length_range] at h1
    simp [List.getD_eq_getElem, h1]

theorem buildPart_tasks (node : NodeSpec) (cap floor : Nat) (sw : List String)
    (k i : Nat) (dc tc cc : List String) :
    (buildPart node cap floor sw k i dc tc cc).1.instructions.tasks = tc := by
  simp [buildPart]

theorem buildPart_criteria (node : NodeSpec) (cap floor : Nat) (sw : List String)
    (k i : Nat) (dc tc cc : List String) :
    (buildPart node cap floor sw k i dc tc cc).1.acceptance_criteria = cc := by
  simp [buildPart]

theorem partsLoop_spec (node : NodeSpec) (cap floor : Nat) (sw : List String) (k : Nat)
    (dc tc cc : List (List String)) (idxs : List Nat) (l : List (NodeSpec × Nat))
    (h : partsLoop node cap floor sw k dc tc cc idxs = some l) :
    l = idxs.map (fun i =>
        buildPart node cap floor sw k i (dc.getD i []) (tc.getD i []) (cc.getD i []))
      ∧ ∀ pb ∈ l, pb.2 ≤ cap := by
  induction idxs generalizing l with
  | nil =>
      have : l = [] := (Option.some.inj h).symm
      subst this
      simp
  | cons idx rest ih =>
      replace h : (if cap < (buildPart node cap floor sw k idx
            (dc.getD idx []) (tc.getD idx []) (cc.getD idx [])).2 then none
          else match partsLoop node cap floor sw k dc tc cc rest with
            | none => none
            | some l => some (buildPart node cap floor sw k idx
                (dc.getD idx []) (tc.getD idx []) (cc.getD idx []) :: l)) = some l := h
      by_cases hcap : cap < (buildPart node cap floor sw k idx
          (dc.getD idx []) (tc.getD idx []) (cc.getD idx [])).2
      · rw [if_pos hcap] at h; exact absurd h (by simp)
      · rw [if_neg hcap] at h
        cases hrec : partsLoop node cap floor sw k dc tc cc rest with
        | none => rw [hrec] at h; exact absurd h (by simp)
        | some l2 =>
            rw [hrec] at h
            obtain ⟨hshape, hbound⟩ := ih l2 hrec
            have hl : l = buildPart node cap floor sw k idx
                (dc.getD idx []) (tc.getD idx []) (cc.getD idx []) :: l2 :=
              (Option.some.inj h).symm
            subst hl
            refine ⟨by rw [List.map_cons, ← hshape], ?_⟩
            intro pb hpb
            rcases List.mem_cons.mp hpb with hh | hh
            · subst hh; omega
            · exact hbound pb hh

theorem tryPartCount_spec (node : NodeSpec) (cap floor : Nat) (sw dw ts ac : List String)
    (k : Nat) (parts : List (NodeSpec × Nat))
    (h : tryPartCount node cap floor sw dw ts ac k = some parts) :
    parts = (List.range k).map (fun i =>
        buildPart node cap floor sw k i ((_split_sequence dw k).getD i [])
          ((_split_sequence ts k).getD i []) ((_split_sequence ac k).getD i []))
      ∧ parts ≠ [] ∧ ∀ pb ∈ parts, pb.2 ≤ cap := by
  replace h : (match partsLoop node cap floor sw k (_split_sequence dw k)
      (_split_sequence ts k) (_split_sequence ac k) (List.range k) with
    | none => none
    | some l => if l ≠ [] then some l else none) = some parts := h
  cases hloop : partsLoop node cap floor sw k (_split_sequence dw k)
      (_split_sequence ts k) (_split_sequence ac k) (List.range k) with
  | none => rw [hloop] at h; exact absurd h (by simp)
  | some l =>
      rw [hloop] at h
      replace h : (if l ≠ [] then some l else none) = some parts := h
      obtain ⟨hshape, hbound⟩ := partsLoop_spec _ _ _ _ _ _ _ _ _ _ hloop
      by_cases hne : l ≠ []
      · rw [if_pos hne] at h
        have : parts = l := (Option.some.inj h).symm
        subst this
        exact ⟨hshape, hne, hbound⟩
      · rw [if_neg hne] at h; exact absurd h (by simp)

theorem tryCounts_spec (node : NodeSpec) (cap floor : Nat) (sw dw ts ac : List String)
    (ks : List Nat) (parts : List (NodeSpec × Nat))
    (h : tryCounts node cap floor sw dw ts ac ks = some parts) :
    ∃ kk ∈ ks, tryPartCount node cap floor sw dw ts ac kk = some parts := by
  induction ks with
  | nil => exact absurd h (by simp [tryCounts])
  | cons k rest ih =>
      replace h : (match tryPartCount node cap floor sw dw ts ac k with
        | some p => some p
        | none => tryCounts node cap floor sw dw ts ac rest) = some parts := h
      cases htry : tryPartCount node cap floor sw dw ts ac k with
      | some p =>
          rw [htry] at h
          refine ⟨k, List.mem_cons_self k rest, ?_⟩
          rw [htry]
          exact h
      | none =>
          rw [htry] at h
          obtain ⟨kk, hmem, hkk⟩ := ih h
          exact ⟨kk, List.mem_cons_of_mem k hmem, hkk⟩

theorem tryCounts_ne_nil (node : NodeSpec) (cap floor : Nat) (sw dw ts ac : List String)
    (ks : List Nat) (parts : List (NodeSpec × Nat))
    (h : tryCounts node cap floor sw dw ts ac ks = some parts) : parts ≠ [] := by
  obtain ⟨kk, _, h3⟩ := tryCounts_spec node cap floor sw dw ts ac ks parts h
  exact (tryPartCount_spec node cap floor sw dw ts ac kk parts h3).2.1

theorem stagedSplitResult_ne_nil (node : NodeSpec) (cap floor : Nat)
    (parts : List (NodeSpec × Nat)) (h : stagedSplitResult node cap floor = some parts) :
    parts ≠ [] :=
  tryCounts_ne_nil _ _ _ _ _ _ _ _ _ h

/-- Every call of `_partition_node` yields at least one part. -/
theorem partition_node_ne_nil (node : NodeSpec) (cap floor : Nat) :
    _partition_node node cap floor ≠ [] := by
  by_cases hbase : _estimate_node_budget node floor ≤ cap
  · simp [_partition_node, hbase]
  · cases hstaged : stagedSplitResult node cap floor with
    | some parts =>
        have hne := stagedSplitResult_ne_nil node cap floor parts hstaged
        simp [_partition_node, hbase, hstaged, hne]
    | none =>
        by_cases hfb : greedyOuter node cap floor (summaryWords (pySplit node.description))
            (node.instructions.tasks.length + node.acceptance_criteria.length
              + (pySplit node.description).length + 1)
            node.instructions.tasks node.acceptance_criteria (pySplit node.description) 0 = []
        · simp [_partition_node, hbase, hstaged, hfb]
        · simp [_partition_node, hbase, hstaged, hfb]


/-! ## Claim C7: partitioning is the identity below capacity -/

/-- A small node whose base budget fits any reasonable capacity. -/
def c7Node : NodeSpec :=
  { domain := .db
    title := "Small"
    description := "compact work item"
    instructions := { tasks := ["one"], contractOps := [] }
    acceptance_criteria := ["done"] }

/-- C7: for every node whose base budget is at most the capacity, the
partitioner is the identity: the node passes through unchanged as exactly
one output node whose reported budget equals its base budget. -/
theorem C7_partition_identity_below_capacity (node : NodeSpec) (capacity floor : Nat)
    (h : _estimate_node_budget node floor ≤ capacity) :
    _partition_node node capacity floor = [(node, _estimate_node_budget node floor)] := by
  unfold _partition_node
  simp [h]

/-- Witness for C7 at a concrete node. -/
theorem C7_partition_identity_below_capacity_witness :
    _estimate_node_budget c7Node 10 ≤ 2000
      ∧ _partition_node c7Node 2000 10 = [(c7Node, _estimate_node_budget c7Node 10)] :=
  ⟨by decide, C7_partition_identity_below_capacity c7Node 2000 10 (by decide)⟩

/-! ## Claim C1: residual over-capacity parts and the violations list -/

/-- A node with empty description, tasks and criteria: its base budget is
exactly the configured floor. -/
def c1Node : NodeSpec :=
  { domain := .be
    title := "T"
    description := ""
    instructions := { tasks := [], contractOps := [] }
    acceptance_criteria := [] }

/-- The degenerate configuration of the claim: the token floor (2000)
exceeds the capacity `int(100 * (1 - 0.1)) = 90`. -/
def c1Tuning : Tuning :=
  { window_headroom_pct := 1/10
    default_model_window := 100
    token_budget_floor := 2000 }

/-- C1 (refuting evaluation): with floor 2000 > capacity 90, the node
cannot be split (its actual estimated budget is 2000 > 90 even unchanged),
yet `plan_budgets` reports the capped budget 90 — not the actual estimated
budget — and an empty violations list, hiding the over-capacity residual
node instead of surfacing it. -/
theorem C1_violations_hidden :
    planCapacity c1Tuning = 90
      ∧ (plan_budgets c1Tuning [c1Node] []).nodes = [c1Node]
      ∧ _estimate_node_budget c1Node c1Tuning.token_budget_floor = 2000
      ∧ (plan_budgets c1Tuning [c1Node] []).budget.budgets = [90]
      ∧ (plan_budgets c1Tuning [c1Node] []).budget.violations = [] := by
  have hcap : planCapacity c1Tuning = 90 := by
    norm_num [planCapacity, c1Tuning]
    decide
  have hpb : plan_budgets c1Tuning [c1Node] [] = plan_budgets_core 90 2000 [c1Node] [] := by
    rw [plan_budgets, hcap]
    rfl
  rw [hpb]
  exact ⟨hcap, by decide, by decide, by decide, by decide⟩

/-! ## Claim C3: content preservation of the staged split, and its failure
in the greedy fallback -/

/-- A node with a ten-word description and one task: with capacity 150 and
floor 1 the staged split always fails (any part holding the task exceeds
capacity), and the greedy fallback drops the task. -/
def c3Node : NodeSpec :=
  { domain := .be
    title := "T"
    description := "a a a a a a a a a a"
    instructions := { tasks := ["t"], contractOps := [] }
    acceptance_criteria := [] }

/-- C3 (counterexample): a node whose base budget (183) exceeds capacity
(150) is returned as a single part (not `k ≥ 2`), and the sum of task
counts across the output parts is 0, not the original 1: the greedy
fallback dropped the task, so content preservation fails as stated. -/
theorem C3_counterexample :
    150 < _estimate_node_budget c3Node 1
      ∧ (_partition_node c3Node 150 1).length = 1
      ∧ ((_partition_node c3Node 150 1).map fun pb => pb.1.instructions.tasks.length).sum = 0
      ∧ c3Node.instructions.tasks.length = 1 := by
  decide

/-- C3 (amended): whenever the staged multi-way split succeeds — i.e. some
part count between `required_parts` and `max_parts` yields a partition with
every part within capacity — the partitioner returns that partition: it has
`k ≥ 2` parts, every part's recomputed budget is at most the capacity, and
the concatenations of the parts' task lists and acceptance-criteria lists
equal the original lists exactly.  (Description words are fitted to
capacity per part and may be truncated, and when the staged split fails the
greedy fallback may drop content and return fewer than 2 parts, as the
counterexample shows.) -/
theorem C3_staged_split_preservation (node : NodeSpec) (capacity floor : Nat)
    (parts : List (NodeSpec × Nat))
    (hbig : capacity < _estimate_node_budget node floor)
    (hstaged : stagedSplitResult node capacity floor = some parts) :
    _partition_node node capacity floor = parts
      ∧ 2 ≤ parts.length
      ∧ (∀ pb ∈ parts, pb.2 ≤ capacity)
      ∧ (parts.map fun pb => pb.1.instructions.tasks).join = node.instructions.tasks
      ∧ (parts.map fun pb => pb.1.acceptance_criteria).join = node.acceptance_criteria := by
  have hnot : ¬ (_estimate_node_budget node floor ≤ capacity) := by omega
  have heq : _partition_node node capacity floor = parts := by
    unfold _partition_node
    simp only [hnot, if_false, hstaged]
  replace hstaged : tryCounts node capacity floor (summaryWords (pySplit node.description))
      (pySplit node.description) node.instructions.tasks node.acceptance_criteria
      (List.range' (requiredParts (_estimate_node_budget node floor) capacity)
        (maxParts (requiredParts (_estimate_node_budget node floor) capacity)
          node.instructions.tasks.length node.acceptance_criteria.length
          (pySplit node.description).length + 1
          - requiredParts (_estimate_node_budget node floor) capacity)) = some parts := hstaged
  obtain ⟨kk, hmem, htry⟩ := tryCounts_spec _ _ _ _ _ _ _ _ _ hstaged
  obtain ⟨hshape, hne, hbound⟩ := tryPartCount_spec _ _ _ _ _ _ _ _ _ htry
  have hk1 : requiredParts (_estimate_node_budget node floor) capacity ≤ kk :=
    (List.mem_range'_1.mp hmem).1
  have hkk2 : 2 ≤ kk := le_trans (Nat.le_max_left 2 _) hk1
  have hkne : kk ≠ 0 := by omega
  refine ⟨heq, ?_, hbound, ?_, ?_⟩
  · rw [hshape]
    simpa using hkk2
  · rw [hshape, List.map_map]
    have hcomp : ((fun pb : NodeSpec × Nat => pb.1.instructions.tasks) ∘ fun i =>
        buildPart node capacity floor (summaryWords (pySplit node.description)) kk i
          ((_split_sequence (pySplit node.description) kk).getD i [])
          ((_split_sequence node.instructions.tasks kk).getD i [])
          ((_split_sequence node.acceptance_criteria kk).getD i []))
        = fun i => (_split_sequence node.instructions.tasks kk).getD i [] := by
      funext i
      exact buildPart_tasks _ _ _ _ _ _ _ _ _
    rw [hcomp]
    have hlen1 : (_split_sequence node.instructions.tasks kk).length = kk :=
      split_sequence_length _ _ hkne
    rw [range_map_getD _ _ _ hlen1, split_sequence_join _ _ hkne]
  · rw [hshape, List.map_map]
    have hcomp : ((fun pb : NodeSpec × Nat => pb.1.acceptance_criteria) ∘ fun i =>
        buildPart node capacity floor (summaryWords (pySplit node.description)) kk i
          ((_split_sequence (pySplit node.description) kk).getD i [])
          ((_split_sequence node.instructions.tasks kk).getD i [])
          ((_split_sequence node.acceptance_criteria kk).getD i []))
        = fun i => (_split_sequence node.acceptance_criteria kk).getD i [] := by
      funext i
      exact buildPart_criteria _ _ _ _ _ _ _ _ _
    rw [hcomp]
    have hlen1 : (_split_sequence node.acceptance_criteria kk).length = kk :=
      split_sequence_length _ _ hkne
    rw [range_map_getD _ _ _ hlen1, split_sequence_join _ _ hkne]

/-- A five-word node at capacity 134 (floor 1): base budget 135 > 134, and
the staged split succeeds at `k = 2`. -/
def c3aNode : NodeSpec :=
  { domain := .be
    title := "T"
    description := "a a a a a"
    instructions := { tasks := [], contractOps := [] }
    acceptance_criteria := [] }

/-- Witness for the amended C3 at a concrete node where the staged split
succeeds. -/
theorem C3_staged_split_preservation_witness :
    2 ≤ (_partition_node c3aNode 134 1).length
      ∧ (∀ pb ∈ _partition_node c3aNode 134 1, pb.2 ≤ 134)
      ∧ ((_partition_node c3aNode 134 1).map fun pb => pb.1.instructions.tasks).join
          = c3aNode.instructions.tasks
      ∧ ((_partition_node c3aNode 134 1).map fun pb => pb.1.acceptance_criteria).join
          = c3aNode.acceptance_criteria := by
  obtain ⟨heq, hlen, hbud, htasks, hcrit⟩ :=
    C3_staged_split_preservation c3aNode 134 1 _ (by decide) rfl
  rw [heq]
  exact ⟨hlen, hbud, htasks, hcrit⟩

/-! ## Claim C8: the token-estimate, base-budget and capacity formulas -/

theorem floor_mul_three_halves (n : Nat) :
    ⌊((n : ℚ) * (3/2))⌋ = ((3 * n / 2 : Nat) : ℤ) := by
  set q := 3 * n / 2 with hq
  have hle : q * 2 ≤ 3 * n := by rw [hq]; exact Nat.div_mul_le_self _ _
  have hlt : 3 * n < q * 2 + 2 := by rw [hq]; omega
  rw [Int.floor_eq_iff]
  constructor
  · show ((q : ℤ) : ℚ) ≤ (n:ℚ) * (3/2)
    have h1 : (q : ℚ) * 2 ≤ 3 * (n : ℚ) := by exact_mod_cast hle
    push_cast
    linarith
  · show (n:ℚ) * (3/2) < ((q : ℤ) : ℚ) + 1
    have h1 : 3 * (n : ℚ) < (q : ℚ) * 2 + 2 := by exact_mod_cast hlt
    push_cast
    linarith

/-- C8: the token estimate of a text span is `max(32, floor(word_count *
1.5) + 128)`; a node's base budget is the description estimate
plus 40 per task and 20 per acceptance criterion, floored at the
configured minimum; and the capacity reported by `plan_budgets` is
`floor(defaultModelWindow * (1 - windowHeadroomPct))` (for the legal
headroom range `0 ≤ h ≤ 1`). -/
theorem C8_token_budget_capacity_formulas :
    (∀ text : String, (estimate_tokens text : ℤ)
        = max 32 (⌊((pySplit text).length : ℚ) * (3/2)⌋ + 128))
      ∧ (∀ (node : NodeSpec) (floor : Nat),
          _estimate_node_budget node floor
            = max (estimate_tokens node.description
                    + 40 * node.instructions.tasks.length
                    + 20 * node.acceptance_criteria.length) floor)
      ∧ (∀ tuning : Tuning, 0 ≤ tuning.window_headroom_pct →
          tuning.window_headroom_pct ≤ 1 →
          ∀ (nodes : List NodeSpec) (edges : List EdgeSpec),
            ((plan_budgets tuning nodes edges).budget.capacity : ℤ)
              = ⌊(tuning.default_model_window : ℚ) * (1 - tuning.window_headroom_pct)⌋) := by
  refine ⟨?_, ?_, ?_⟩
  · intro text
    rw [floor_mul_three_halves]
    unfold estimate_tokens
    push_cast [Nat.cast_max]
    rfl
  · intro node floor
    rfl
  · intro tuning h0 h1 nodes edges
    have hcap : (plan_budgets tuning nodes edges).budget.capacity = planCapacity tuning := rfl
    rw [hcap]
    unfold planCapacity
    rw [Int.toNat_of_nonneg]
    apply Int.floor_nonneg.mpr
    have : (0:ℚ) ≤ 1 - tuning.window_headroom_pct := by linarith
    positivity

/-- Witness for C8 at a concrete text, node and configuration. -/
theorem C8_token_budget_capacity_formulas_witness :
    ((estimate_tokens "alpha beta gamma" : ℤ)
        = max 32 (⌊((pySplit "alpha beta gamma").length : ℚ) * (3/2)⌋ + 128))
      ∧ (_estimate_node_budget c7Node 10
          = max (estimate_tokens c7Node.description
                  + 40 * c7Node.instructions.tasks.length
                  + 20 * c7Node.acceptance_criteria.length) 10)
      ∧ (0:ℚ) ≤ ({} : Tuning).window_headroom_pct
      ∧ (({} : Tuning).window_headroom_pct : ℚ) ≤ 1
      ∧ ((plan_budgets {} [] []).budget.capacity : ℤ)
          = ⌊(({} : Tuning).default_model_window : ℚ)
              * (1 - ({} : Tuning).window_headroom_pct)⌋ :=
  ⟨C8_token_budget_capacity_formulas.1 "alpha beta gamma",
   C8_token_budget_capacity_formulas.2.1 c7Node 10,
   by norm_num [Tuning.window_headroom_pct],
   by norm_num [Tuning.window_headroom_pct],
   C8_token_budget_capacity_formulas.2.2 {} (by norm_num [Tuning.window_headroom_pct])
     (by norm_num [Tuning.window_headroom_pct]) [] []⟩

/-! ## Claim C6: the composite complexity score -/

theorem floor_le_roundHalfEven (x : ℚ) : ⌊x⌋ ≤ roundHalfEven x := by
  show ⌊x⌋ ≤ (if x - ⌊x⌋ < 1/2 then ⌊x⌋
    else if 1/2 < x - ⌊x⌋ then ⌊x⌋ + 1
    else if 2 ∣ ⌊x⌋ then ⌊x⌋ else ⌊x⌋ + 1)
  split
  · exact le_refl _
  · split
    · omega
    · split <;> omega

theorem roundHalfEven_le_ceil (x : ℚ) : roundHalfEven x ≤ ⌈x⌉ := by
  have hchain : x - ⌊x⌋ ≥ 1/2 → ⌊x⌋ + 1 ≤ ⌈x⌉ := by
    intro hf
    have hx : (⌊x⌋ : ℚ) < x := by linarith
    have : ((⌊x⌋ : ℤ) : ℚ) < ((⌈x⌉ : ℤ) : ℚ) := lt_of_lt_of_le hx (Int.le_ceil x)
    have : (⌊x⌋ : ℤ) < ⌈x⌉ := by exact_mod_cast this
    omega
  show (if x - ⌊x⌋ < 1/2 then ⌊x⌋
    else if 1/2 < x - ⌊x⌋ then ⌊x⌋ + 1
    else if 2 ∣ ⌊x⌋ then ⌊x⌋ else ⌊x⌋ + 1) ≤ ⌈x⌉
  split
  · exact Int.floor_le_ceil x
  · next hge =>
      push_neg at hge
      split
      · exact hchain (by linarith)
      · split
        · exact Int.floor_le_ceil x
        · exact hchain (by linarith)

/-- `pyRound2` maps values below a hundredth-grid point to values below
it. -/
theorem pyRound2_le_div (x : ℚ) (m : ℤ) (h : x ≤ (m:ℚ) / 100) :
    pyRound2 x ≤ (m:ℚ) / 100 := by
  unfold pyRound2
  have h1 : (100:ℚ) * x ≤ (m:ℚ) := by linarith
  have h2 : roundHalfEven (100 * x) ≤ m :=
    le_trans (roundHalfEven_le_ceil _) (Int.ceil_le.mpr h1)
  have h3 : ((roundHalfEven (100 * x) : ℤ) : ℚ) ≤ (m:ℚ) := by exact_mod_cast h2
  linarith

/-- `pyRound2` maps values above a hundredth-grid point to values above
it. -/
theorem div_le_pyRound2 (x : ℚ) (m : ℤ) (h : (m:ℚ) / 100 ≤ x) :
    (m:ℚ) / 100 ≤ pyRound2 x := by
  unfold pyRound2
  have h1 : (m:ℚ) ≤ 100 * x := by linarith
  have h2 : m ≤ roundHalfEven (100 * x) :=
    le_trans (Int.le_floor.mpr h1) (floor_le_roundHalfEven _)
  have h3 : ((m:ℤ) : ℚ) ≤ ((roundHalfEven (100 * x) : ℤ) : ℚ) := by exact_mod_cast h2
  linarith

/-- Every feature score produced by `_score_components` lies in `[0, 1]`. -/
theorem score_components_bounds (node : NodeSpec) (ind outd : Nat) :
    (0 ≤ (_score_components node ind outd).1 ∧ (_score_components node ind outd).1 ≤ 1)
      ∧ (0 ≤ (_score_components node ind outd).2.1 ∧ (_score_components node ind outd).2.1 ≤ 1)
      ∧ (0 ≤ (_score_components node ind outd).2.2.1 ∧ (_score_components node ind outd).2.2.1 ≤ 1)
      ∧ (0 ≤ (_score_components node ind outd).2.2.2.1 ∧ (_score_components node ind outd).2.2.2.1 ≤ 1)
      ∧ (0 ≤ (_score_components node ind outd).2.2.2.2 ∧ (_score_components node ind outd).2.2.2.2 ≤ 1) := by
  refine ⟨⟨?_, ?_⟩, ⟨?_, ?_⟩, ⟨?_, ?_⟩, ⟨?_, ?_⟩, ⟨?_, ?_⟩⟩ <;>
    simp only [_score_components]
  · exact le_min (by norm_num) (by positivity)
  · exact min_le_left _ _
  · exact le_min (by norm_num) (by positivity)
  · exact min_le_left _ _
  · refine le_min (by norm_num) ?_
    split <;> positivity
  · exact min_le_left _ _
  · exact le_min (by norm_num) (by positivity)
  · exact min_le_left _ _
  · split <;> norm_num
  · split <;> norm_num

/-- C6: for every node scored by `compute_complexity`, the composite score
is `round(100 * (0.30 d + 0.20 s + 0.20 n + 0.15 a + 0.15 r), 2)` over the
component scores of its node and final-graph degrees and lies in
`[0, 100]`; `recommended_subtasks = max(1, ceil(ccs / 15)) ≥ 1`;
`confidence = max(0.5, round(1 - ccs / 200, 2))` lies in `[0.5, 1]`; and
the model class is the default class unless `ccs ≥ 81` and an optional
class is configured, in which case that class is selected. -/
theorem C6_complexity_score_properties (tuning : Tuning) (nodes : List NodeSpec)
    (edges : List EdgeSpec) (b : ComplexityBreakdown)
    (hb : b ∈ compute_complexity tuning nodes edges) :
    0 ≤ b.ccs ∧ b.ccs ≤ 100
      ∧ b.recommended_subtasks = max 1 ⌈b.ccs / 15⌉
      ∧ 1 ≤ b.recommended_subtasks
      ∧ b.confidence = max (1/2) (pyRound2 (1 - b.ccs / 200))
      ∧ 1/2 ≤ b.confidence ∧ b.confidence ≤ 1
      ∧ b.model_class = (match tuning.optional_model_class with
          | some cls => if 81 ≤ b.ccs then cls else tuning.default_model_class
          | none => tuning.default_model_class)
      ∧ ∃ node, (nodes.get? b.node_index = some node
          ∧ b.ccs = pyRound2
              ((3/10 * (_score_components node (inDegree edges b.node_index)
                  (outDegree edges b.node_index)).1
                + 1/5 * (_score_components node (inDegree edges b.node_index)
                    (outDegree edges b.node_index)).2.1
                + 1/5 * (_score_components node (inDegree edges b.node_index)
                    (outDegree edges b.node_index)).2.2.1
                + 3/20 * (_score_components node (inDegree edges b.node_index)
                    (outDegree edges b.node_index)).2.2.2.1
                + 3/20 * (_score_components node (inDegree edges b.node_index)
                    (outDegree edges b.node_index)).2.2.2.2) * 100)) := by
  unfold compute_complexity at hb
  obtain ⟨p, hp, rfl⟩ := List.mem_map.mp hb
  obtain ⟨hd, hs, hn, ha, hr⟩ := score_components_bounds p.2 (inDegree edges p.1) (outDegree edges p.1)
  set c := _score_components p.2 (inDegree edges p.1) (outDegree edges p.1) with hc
  have hw0 : 0 ≤ 3/10 * c.1 + 1/5 * c.2.1 + 1/5 * c.2.2.1 + 3/20 * c.2.2.2.1 + 3/20 * c.2.2.2.2 := by
    have := hd.1; have := hs.1; have := hn.1; have := ha.1; have := hr.1
    linarith
  have hw1 : 3/10 * c.1 + 1/5 * c.2.1 + 1/5 * c.2.2.1 + 3/20 * c.2.2.2.1 + 3/20 * c.2.2.2.2 ≤ 1 := by
    have := hd.2; have := hs.2; have := hn.2; have := ha.2; have := hr.2
    linarith
  have hccs0 : (0:ℚ) ≤ pyRound2 ((3/10 * c.1 + 1/5 * c.2.1 + 1/5 * c.2.2.1
      + 3/20 * c.2.2.2.1 + 3/20 * c.2.2.2.2) * 100) := by
    have := div_le_pyRound2 ((3/10 * c.1 + 1/5 * c.2.1 + 1/5 * c.2.2.1
        + 3/20 * c.2.2.2.1 + 3/20 * c.2.2.2.2) * 100) 0 (by push_cast; nlinarith)
    simpa using this
  have hccs100 : pyRound2 ((3/10 * c.1 + 1/5 * c.2.1 + 1/5 * c.2.2.1
      + 3/20 * c.2.2.2.1 + 3/20 * c.2.2.2.2) * 100) ≤ 100 := by
    have := pyRound2_le_div ((3/10 * c.1 + 1/5 * c.2.1 + 1/5 * c.2.2.1
        + 3/20 * c.2.2.2.1 + 3/20 * c.2.2.2.2) * 100) 10000 (by push_cast; nlinarith)
    have h100 : ((10000:ℤ):ℚ) / 100 = 100 := by norm_num
    rw [h100] at this
    exact this
  refine ⟨hccs0, hccs100, rfl, le_max_left _ _, rfl, le_max_left _ _, ?_, rfl, p.2, ?_, rfl⟩
  · apply max_le (by norm_num)
    have hle : (1:ℚ) - pyRound2 ((3/10 * c.1 + 1/5 * c.2.1 + 1/5 * c.2.2.1
        + 3/20 * c.2.2.2.1 + 3/20 * c.2.2.2.2) * 100) / 200 ≤ ((100:ℤ):ℚ) / 100 := by
      push_cast
      nlinarith
    have := pyRound2_le_div _ 100 hle
    have h1 : ((100:ℤ):ℚ) / 100 = 1 := by norm_num
    rw [h1] at this
    exact this
  · have := List.mem_enum_iff_getElem?.mp hp
    simpa [List.get?_eq_getElem?] using this

/-- Witness for C6 at a concrete singleton graph. -/
theorem C6_complexity_score_properties_witness :
    ∃ b ∈ compute_complexity {} [c7Node] [], 0 ≤ b.ccs ∧ b.ccs ≤ 100
        ∧ 1 ≤ b.recommended_subtasks ∧ 1/2 ≤ b.confidence ∧ b.confidence ≤ 1 := by
  have hmem : ∀ b ∈ compute_complexity ({} : Tuning) [c7Node] [], True := fun _ _ => trivial
  refine ⟨(compute_complexity {} [c7Node] []).headD default, ?_, ?_⟩
  case _ =>
    simp [compute_complexity]
  case _ =>
    obtain ⟨h0, h1, _, h3, _, h5, h6, _⟩ :=
      C6_complexity_score_properties {} [c7Node] []
        ((compute_complexity {} [c7Node] []).headD default) (by simp [compute_complexity])
    exact ⟨h0, h1, h3, h5, h6⟩

/-! ## Claim C5: coverage characterization and fatal missing coverage -/

/-- The coverage computed inside `create_plan` (operations of the
ingestion's contract against the contract-operation references of the
assembled nodes). -/
def createPlanCoverage (ingestion : IngestionResult) : CoverageResult :=
  compute_coverage ingestion.contract.operations
    (((build_plan ingestion).nodes.map fun node => node.instructions.contractOps).join)

/-- `create_plan`, with its let-bindings expanded (definitional). -/
theorem create_plan_def (tuning : Tuning) (ingestion : IngestionResult) :
    create_plan tuning ingestion =
      (if (createPlanCoverage ingestion).missing_operations ≠ [] then
        Except.error ("Missing contract coverage: ["
          ++ String.intercalate ", " (createPlanCoverage ingestion).missing_operations ++ "]")
      else
        Except.ok
          { budget := plan_budgets tuning (build_plan ingestion).nodes []
            complexities := compute_complexity tuning (build_plan ingestion).nodes
              (build_plan ingestion).edges
            coverage := createPlanCoverage ingestion
            persisted_nodes := (build_plan ingestion).nodes
            persisted_edges := (build_plan ingestion).edges
            persisted_token_budgets :=
              (List.range (build_plan ingestion).nodes.length).map fun idx =>
                (plan_budgets tuning (build_plan ingestion).nodes []).budget.budgets.getD idx 0
            token_cost := (plan_budgets tuning (build_plan ingestion).nodes []).budget.budgets.sum
            score := (((compute_complexity tuning (build_plan ingestion).nodes
                (build_plan ingestion).edges).map (·.ccs)).sum)
              / max ((compute_complexity tuning (build_plan ingestion).nodes
                (build_plan ingestion).edges).length : ℚ) 1 }) := rfl

theorem pyStrLeList_total (as bs : List Char) :
    pyStrLeList as bs = true ∨ pyStrLeList bs as = true := by
  induction as generalizing bs with
  | nil => left; rfl
  | cons a as ih =>
      cases bs with
      | nil => right; rfl
      | cons b bs =>
          by_cases h1 : a.toNat < b.toNat
          · left; simp [pyStrLeList, h1]
          · by_cases h2 : b.toNat < a.toNat
            · right; simp [pyStrLeList, h1, h2]
            · rcases ih bs with h | h
              · left; simp [pyStrLeList, h1, h2, h]
              · right; simp [pyStrLeList, h1, h2, h]

theorem pyStrLeList_trans (as bs cs : List Char)
    (h1 : pyStrLeList as bs = true) (h2 : pyStrLeList bs cs = true) :
    pyStrLeList as cs = true := by
  induction as generalizing bs cs with
  | nil => rfl
  | cons a as ih =>
      cases bs with
      | nil => simp [pyStrLeList] at h1
      | cons b bs =>
          cases cs with
          | nil => simp [pyStrLeList] at h2
          | cons c cs =>
              simp only [pyStrLeList] at h1 h2 ⊢
              rcases Nat.lt_trichotomy a.toNat b.toNat with hab | hab | hab
              · rcases Nat.lt_trichotomy b.toNat c.toNat with hbc | hbc | hbc
                · have hac : a.toNat < c.toNat := by omega
                  simp [hac]
                · have hac : a.toNat < c.toNat := by omega
                  simp [hac]
                · have hn1 : ¬ b.toNat < c.toNat := by omega
                  simp [hn1, hbc] at h2
              · have hn1 : ¬ a.toNat < b.toNat := by omega
                have hn2 : ¬ b.toNat < a.toNat := by omega
                simp only [hn1, hn2, if_false] at h1
                rcases Nat.lt_trichotomy b.toNat c.toNat with hbc | hbc | hbc
                · have hac : a.toNat < c.toNat := by omega
                  simp [hac]
                · have hn3 : ¬ b.toNat < c.toNat := by omega
                  have hn4 : ¬ c.toNat < b.toNat := by omega
                  simp only [hn3, hn4, if_false] at h2
                  have hac1 : ¬ a.toNat < c.toNat := by omega
                  have hac2 : ¬ c.toNat < a.toNat := by omega
                  simp only [hac1, hac2, if_false]
                  exact ih bs cs h1 h2
                · have hn3 : ¬ b.toNat < c.toNat := by omega
                  simp [hn3, hbc] at h2
              · have hn1 : ¬ a.toNat < b.toNat := by omega
                simp [hn1, hab] at h1

theorem pyStrLe_total (a b : String) : pyStrLe a b = true ∨ pyStrLe b a = true :=
  pyStrLeList_total a.data b.data

theorem pyStrLe_trans (a b c : String) (h1 : pyStrLe a b = true) (h2 : pyStrLe b c = true) :
    pyStrLe a c = true :=
  pyStrLeList_trans a.data b.data c.data h1 h2

theorem insertStr_perm (x : String) (l : List String) :
    List.Perm (insertStr x l) (x :: l) := by
  induction l with
  | nil => exact List.Perm.refl _
  | cons y ys ih =>
      unfold insertStr
      by_cases h : pyStrLe x y = true
      · rw [if_pos h]
      · rw [if_neg h]
        exact List.Perm.trans (List.Perm.cons y ih) (List.Perm.swap x y ys)

theorem sortStrings_perm (l : List String) : List.Perm (sortStrings l) l := by
  induction l with
  | nil => exact List.Perm.refl _
  | cons x xs ih =>
      unfold sortStrings
      exact List.Perm.trans (insertStr_perm _ _) (List.Perm.cons x ih)

theorem insertStr_sorted (x : String) (l : List String)
    (hl : l.Sorted fun a b => pyStrLe a b = true) :
    (insertStr x l).Sorted fun a b => pyStrLe a b = true := by
  induction l with
  | nil => simp [insertStr]
  | cons y ys ih =>
      rw [List.sorted_cons] at hl
      unfold insertStr
      by_cases h : pyStrLe x y
      · rw [if_pos h, List.sorted_cons]
        refine ⟨?_, List.sorted_cons.mpr hl⟩
        intro b hb
        rcases List.mem_cons.mp hb with rfl | hb
        · exact h
        · exact pyStrLe_trans x y b h (hl.1 b hb)
      · rw [if_neg h, List.sorted_cons]
        refine ⟨?_, ih hl.2⟩
        intro b hb
        rcases List.mem_cons.mp ((insertStr_perm x ys).mem_iff.mp hb) with rfl | hb
        · rcases pyStrLe_total b y with hxy | hyx
          · exact absurd hxy h
          · exact hyx
        · exact hl.1 b hb

theorem sortStrings_sorted (l : List String) :
    (sortStrings l).Sorted fun a b => pyStrLe a b = true := by
  induction l with
  | nil => simp [sortStrings]
  | cons x xs ih => exact insertStr_sorted x (sortStrings xs) ih

/-- C5: `compute_coverage` returns, as `missing_operations`, the sorted
(code-point order) duplicate-free set difference of the contract operation
ids minus the covered ids, with `total_operations` the number of distinct
contract operation ids; and a plan is only ever persisted (`create_plan`
returns `Except.ok`) when that set difference is empty — the missing-
coverage check raises before anything is persisted. -/
theorem C5_coverage_sorted_difference_and_fatal :
    (∀ (operations : List Operation) (covered : List String),
      (compute_coverage operations covered).missing_operations.Sorted
          (fun a b => pyStrLe a b = true)
        ∧ (compute_coverage operations covered).missing_operations.Nodup
        ∧ (∀ x, x ∈ (compute_coverage operations covered).missing_operations ↔
            (x ∈ operations.map (fun op => op.operation_id) ∧ x ∉ covered))
        ∧ (compute_coverage operations covered).total_operations
            = (operations.map (fun op => op.operation_id)).toFinset.card
        ∧ (compute_coverage operations covered).covered_operations
            = (compute_coverage operations covered).total_operations
              - (compute_coverage operations covered).missing_operations.length)
      ∧ (∀ (tuning : Tuning) (ingestion : IngestionResult) (p : CreatedPlan),
          create_plan tuning ingestion = Except.ok p →
            p.coverage.missing_operations = []) := by
  constructor
  · intro operations covered
    refine ⟨sortStrings_sorted _, ?_, ?_, ?_, rfl⟩
    · exact ((sortStrings_perm _).nodup_iff).mpr
        ((operations.map (fun op => op.operation_id)).nodup_dedup.filter _)
    · intro x
      simp only [compute_coverage]
      rw [(sortStrings_perm _).mem_iff, List.mem_filter, List.mem_dedup]
      simp
    · exact (List.card_toFinset _).symm
  · intro tuning ingestion p hp
    rw [create_plan_def] at hp
    by_cases hmiss : (createPlanCoverage ingestion).missing_operations ≠ []
    · rw [if_pos hmiss] at hp
      exact absurd hp (by simp)
    · rw [if_neg hmiss] at hp
      push_neg at hmiss
      have := Except.ok.inj hp
      rw [← this]
      exact hmiss

/-- A contract with one operation whose id is missing from the covered
list, for the coverage half of the witness. -/
def c5Op : Operation :=
  { path := "/items", method := "get", operation_id := "listItems", summary := "", tags := ["items"] }

/-- An ingestion with no operations and no schemas: `create_plan` succeeds
(nothing can be uncovered). -/
def c5Ing : IngestionResult :=
  { prd := { text := "", headings := [], glossary := [], constraints := [], has_ui := false }
    contract := { raw := "", operations := [], schemas := [], hash := "h" } }

/-- Witness for C5: the coverage characterization at a concrete missing
operation, and the fatality direction at a concrete successful plan. -/
theorem C5_coverage_sorted_difference_and_fatal_witness :
    ("listItems" ∈ (compute_coverage [c5Op] ["other"]).missing_operations
        ↔ ("listItems" ∈ [c5Op].map (fun op => op.operation_id)
            ∧ "listItems" ∉ ["other"]))
      ∧ (createPlanCoverage c5Ing).missing_operations = [] := by
  constructor
  · exact ((C5_coverage_sorted_difference_and_fatal.1 [c5Op] ["other"]).2.2.1 "listItems")
  · have hok : create_plan ({} : Tuning) c5Ing = Except.ok
        { budget := plan_budgets {} (build_plan c5Ing).nodes []
          complexities := compute_complexity {} (build_plan c5Ing).nodes (build_plan c5Ing).edges
          coverage := createPlanCoverage c5Ing
          persisted_nodes := (build_plan c5Ing).nodes
          persisted_edges := (build_plan c5Ing).edges
          persisted_token_budgets := (List.range (build_plan c5Ing).nodes.length).map fun idx =>
            (plan_budgets {} (build_plan c5Ing).nodes []).budget.budgets.getD idx 0
          token_cost := (plan_budgets {} (build_plan c5Ing).nodes []).budget.budgets.sum
          score := (((compute_complexity {} (build_plan c5Ing).nodes
              (build_plan c5Ing).edges).map (·.ccs)).sum)
            / max ((compute_complexity {} (build_plan c5Ing).nodes
              (build_plan c5Ing).edges).length : ℚ) 1 } := by
      rw [create_plan_def]
      rw [if_neg (by decide)]
    exact C5_coverage_sorted_difference_and_fatal.2 {} c5Ing _ hok

/-! ## Structure of the partition mapping and the rewired edge list -/

/-- Number of partitions of each original node. -/
def partitionCounts (capacity floor : Nat) (nodes : List NodeSpec) : List Nat :=
  nodes.map fun n => (_partition_node n capacity floor).length

/-- First new index assigned to original node `j` by `plan_budgets`. -/
def startOffset (capacity floor : Nat) (nodes : List NodeSpec) (j : Nat) : Nat :=
  ((partitionCounts capacity floor nodes).take j).sum

theorem accumulateParts_fst (ps : List (List (NodeSpec × Nat))) (start : Nat) :
    (accumulateParts ps start).1 = (ps.map (·.map Prod.fst)).join := by
  induction ps generalizing start with
  | nil => rfl
  | cons p rest ih => simp [accumulateParts, ih]

theorem accumulateParts_budgets (ps : List (List (NodeSpec × Nat))) (start : Nat) :
    (accumulateParts ps start).2.1 = (ps.map (·.map Prod.snd)).join := by
  induction ps generalizing start with
  | nil => rfl
  | cons p rest ih => simp [accumulateParts, ih]

theorem accumulateParts_mapping_length (ps : List (List (NodeSpec × Nat))) (start : Nat) :
    (accumulateParts ps start).2.2.length = ps.length := by
  induction ps generalizing start with
  | nil => rfl
  | cons p rest ih => simp [accumulateParts, ih]

theorem accumulateParts_mapping_get? (ps : List (List (NodeSpec × Nat))) (start j : Nat)
    (h : j < ps.length) :
    (accumulateParts ps start).2.2.get? j
      = some ((List.range ((ps.map List.length).getD j 0)).map
          (· + (start + (((ps.map List.length).take j).sum)))) := by
  induction ps generalizing start j with
  | nil => simp at h
  | cons p rest ih =>
      cases j with
      | zero => simp [accumulateParts]
      | succ j =>
          have hj : j < rest.length := by simpa using h
          show (accumulateParts rest (start + p.length)).2.2.get? j = _
          rw [ih (start + p.length) j hj]
          congr 1
          congr 1
          funext i
          simp [List.take_cons, Nat.add_assoc]

theorem headD_range_map (off k : Nat) (h : k ≠ 0) :
    (((List.range k).map (· + off)).headD 0) = off := by
  cases k with
  | zero => omega
  | succ m => simp [List.range_succ_eq_map]

theorem getLastD_range_map (off k : Nat) (h : k ≠ 0) :
    (((List.range k).map (· + off)).getLastD 0) = off + k - 1 := by
  rw [List.getLastD_eq_getLast?, List.getLast?_eq_getElem?]
  have hlen : ((List.range k).map (· + off)).length = k := by simp
  rw [hlen]
  have hk1 : k - 1 < k := by omega
  rw [List.getElem?_map]
  rw [List.getElem?_range hk1]
  simp
  omega

theorem filterMap_congr_map {α β : Type} (l : List α) (f : α → Option β) (g : α → β)
    (h : ∀ a ∈ l, f a = some (g a)) : l.filterMap f = l.map g := by
  induction l with
  | nil => rfl
  | cons a rest ih =>
      rw [List.filterMap_cons, h a (List.mem_cons_self a rest), List.map_cons,
        ih fun b hb => h b (List.mem_cons_of_mem a hb)]

theorem zip_tail_range_map (off k : Nat) :
    (((List.range k).map (· + off)).zip ((List.range k).map (· + off)).tail)
      = (List.range (k - 1)).map (fun t => (off + t, off + t + 1)) := by
  induction k generalizing off with
  | zero => rfl
  | succ m ih =>
      cases m with
      | zero => rfl
      | succ m' =>
          rw [List.range_succ_eq_map]
          simp only [List.map_cons, List.map_map, List.tail_cons]
          have hcomp : ((· + off) ∘ Nat.succ) = (· + (off + 1)) := by
            funext t
            simp [Function.comp, Nat.succ_eq_add_one]
            omega
          rw [hcomp]
          have hzip : ((0 + off) :: (List.range (m' + 1)).map (· + (off + 1))).zip
              ((List.range (m' + 1)).map (· + (off + 1)))
              = (0 + off, ((List.range (m' + 1)).map (· + (off + 1))).headD 0)
                :: (((List.range (m' + 1)).map (· + (off + 1))).zip
                    ((List.range (m' + 1)).map (· + (off + 1))).tail) := by
            cases hr : (List.range (m' + 1)).map (· + (off + 1)) with
            | nil => simp [List.range_succ_eq_map] at hr
            | cons a rest => simp
          rw [hzip, ih (off + 1), headD_range_map (off + 1) (m' + 1) (by omega)]
          have hfun : (fun t => (off + 1 + t, off + 1 + t + 1))
              = ((fun t : Nat => (off + t, off + t + 1)) ∘ Nat.succ) := by
            funext t
            simp [Function.comp, Prod.ext_iff]
            omega
          have hr3 : m' + 1 - 1 = m' := rfl
          rw [hr3, hfun]
          have hr4 : m' + 1 + 1 - 1 = m' + 1 := rfl
          rw [hr4, List.range_succ_eq_map]
          simp only [List.map_cons, List.map_map]
          norm_num

theorem enum_range_map {α : Type} (n : Nat) (g : Nat → α) :
    ((List.range n).map g).enum = (List.range n).map fun j => (j, g j) := by
  apply List.ext_getElem
  · simp
  · intro i h1 h2
    simp at h1
    simp [List.getElem_enum, h1]

/-- The index mapping built by `plan_budgets_core`: original index `j` is
assigned the contiguous nonempty block starting at `startOffset`. -/
theorem plan_budgets_mapping (capacity floor : Nat) (nodes : List NodeSpec) (j : Nat)
    (h : j < nodes.length) :
    (accumulateParts (nodes.map fun n => _partition_node n capacity floor) 0).2.2.get? j
      = some ((List.range ((partitionCounts capacity floor nodes).getD j 0)).map
          (· + startOffset capacity floor nodes j)) := by
  rw [accumulateParts_mapping_get? _ 0 j (by simpa using h)]
  have hmap : ((nodes.map fun n => _partition_node n capacity floor).map List.length)
      = partitionCounts capacity floor nodes := by
    rw [List.map_map]
    rfl
  rw [hmap]
  have hfun : (fun x => x + (0 + ((partitionCounts capacity floor nodes).take j).sum))
      = (fun x => x + startOffset capacity floor nodes j) := by
    funext x
    simp [startOffset]
  rw [hfun]

theorem partitionCounts_pos (capacity floor : Nat) (nodes : List NodeSpec) (j : Nat)
    (h : j < nodes.length) : 1 ≤ (partitionCounts capacity floor nodes).getD j 0 := by
  unfold partitionCounts
  rw [List.getD_eq_getElem _ _ (by simpa using h)]
  simp only [List.getElem_map]
  have := partition_node_ne_nil (nodes[j]) capacity floor
  cases hp : _partition_node (nodes[j]) capacity floor with
  | nil => exact absurd hp this
  | cons a l => simp [hp]

/-- The full mapping list of `plan_budgets_core`. -/
theorem plan_budgets_mapping_list (capacity floor : Nat) (nodes : List NodeSpec) :
    (accumulateParts (nodes.map fun n => _partition_node n capacity floor) 0).2.2
      = (List.range nodes.length).map fun j =>
          (List.range ((partitionCounts capacity floor nodes).getD j 0)).map
            (· + startOffset capacity floor nodes j) := by
  apply List.ext_get?
  intro j
  by_cases h : j < nodes.length
  · rw [plan_budgets_mapping capacity floor nodes j h]
    rw [List.get?_eq_getElem?, List.getElem?_map, List.getElem?_range h]
    rfl
  · have h1 : (accumulateParts (nodes.map fun n => _partition_node n capacity floor) 0).2.2.length ≤ j := by
      rw [accumulateParts_mapping_length]
      simpa using Nat.le_of_not_lt h
    have h2 : ((List.range nodes.length).map fun j =>
        (List.range ((partitionCounts capacity floor nodes).getD j 0)).map
          (· + startOffset capacity floor nodes j)).length ≤ j := by
      simpa using Nat.le_of_not_lt h
    rw [List.get?_eq_getElem?, List.get?_eq_getElem?,
      List.getElem?_eq_none h1, List.getElem?_eq_none h2]

/-- The cross-node edge that `_rewire_edges` produces for an original edge:
last partition of the source to first partition of the target, description
and artifact type preserved. -/
def crossEdgeOf (capacity floor : Nat) (nodes : List NodeSpec) (e : EdgeSpec) : EdgeSpec :=
  { from_index := startOffset capacity floor nodes e.from_index
      + (partitionCounts capacity floor nodes).getD e.from_index 0 - 1
    to_index := startOffset capacity floor nodes e.to_index
    description := e.description
    artifact_type := e.artifact_type }

/-- The partition-order chain that `_rewire_edges` produces for original
node `j`. -/
def seqEdgesOf (capacity floor : Nat) (nodes : List NodeSpec) (j : Nat) : List EdgeSpec :=
  (List.range ((partitionCounts capacity floor nodes).getD j 0 - 1)).map fun t =>
    { from_index := startOffset capacity floor nodes j + t
      to_index := startOffset capacity floor nodes j + t + 1
      description := some ("Partition order for " ++ (nodes.getD j default).title)
      artifact_type := none }

/-- `plan_budgets_core` rewires the edges to exactly: one cross-node edge
per original in-bounds edge (in input order), followed by the sequential
partition chains of the original nodes (in node order). -/
theorem rewire_core (capacity floor : Nat) (nodes : List NodeSpec) (edges : List EdgeSpec)
    (h : ∀ e ∈ edges, e.from_index < nodes.length ∧ e.to_index < nodes.length) :
    (plan_budgets_core capacity floor nodes edges).edges
      = edges.map (crossEdgeOf capacity floor nodes)
        ++ ((List.range nodes.length).map (seqEdgesOf capacity floor nodes)).join := by
  have hE : (plan_budgets_core capacity floor nodes edges).edges
      = _rewire_edges edges
          (accumulateParts (nodes.map fun n => _partition_node n capacity floor) 0).2.2
          nodes
          (accumulateParts (nodes.map fun n => _partition_node n capacity floor) 0).1 := rfl
  rw [hE, plan_budgets_mapping_list]
  set R := (List.range nodes.length).map fun j =>
    (List.range ((partitionCounts capacity floor nodes).getD j 0)).map
      (· + startOffset capacity floor nodes j) with hR
  have hget : ∀ u, u < nodes.length → R.get? u
      = some ((List.range ((partitionCounts capacity floor nodes).getD u 0)).map
          (· + startOffset capacity floor nodes u)) := by
    intro u hu
    rw [hR, List.get?_eq_getElem?, List.getElem?_map, List.getElem?_range hu]
    rfl
  show (edges.filterMap fun edge =>
      match R.get? edge.from_index, R.get? edge.to_index with
      | some from_indices, some to_indices =>
          if from_indices = [] ∨ to_indices = [] then none
          else some { from_index := from_indices.getLastD 0, to_index := to_indices.headD 0,
                      description := edge.description, artifact_type := edge.artifact_type }
      | _, _ => none)
    ++ ((R.enum.map fun p =>
      if p.2.length ≤ 1 then []
      else (p.2.zip p.2.tail).map fun cn =>
        ({ from_index := cn.1, to_index := cn.2,
           description := some ("Partition order for " ++ (nodes.getD p.1 default).title),
           artifact_type := none } : EdgeSpec)).join)
    = _
  congr 1
  · apply filterMap_congr_map
    intro e he
    obtain ⟨hu, hv⟩ := h e he
    rw [hget e.from_index hu, hget e.to_index hv]
    have hku : 1 ≤ (partitionCounts capacity floor nodes).getD e.from_index 0 :=
      partitionCounts_pos capacity floor nodes e.from_index hu
    have hkv : 1 ≤ (partitionCounts capacity floor nodes).getD e.to_index 0 :=
      partitionCounts_pos capacity floor nodes e.to_index hv
    set Mu := (List.range ((partitionCounts capacity floor nodes).getD e.from_index 0)).map
      (· + startOffset capacity floor nodes e.from_index) with hMu
    set Mv := (List.range ((partitionCounts capacity floor nodes).getD e.to_index 0)).map
      (· + startOffset capacity floor nodes e.to_index) with hMv
    show (if Mu = [] ∨ Mv = [] then (none : Option EdgeSpec)
        else some ({ from_index := Mu.getLastD 0, to_index := Mv.headD 0,
                     description := e.description, artifact_type := e.artifact_type } : EdgeSpec))
      = some (crossEdgeOf capacity floor nodes e)
    rw [if_neg]
    · rw [hMu, hMv, getLastD_range_map _ _ (by omega), headD_range_map _ _ (by omega)]
      rfl
    · push_neg
      refine ⟨?_, ?_⟩
      · rw [hMu]
        apply List.ne_nil_of_length_pos
        simp only [List.length_map, List.length_range]
        omega
      · rw [hMv]
        apply List.ne_nil_of_length_pos
        simp only [List.length_map, List.length_range]
        omega
  · rw [hR, enum_range_map]
    rw [List.map_map]
    congr 1
    apply List.map_congr_left
    intro j hj
    simp only [Function.comp]
    have hlen : ((List.range ((partitionCounts capacity floor nodes).getD j 0)).map
        (· + startOffset capacity floor nodes j)).length
        = (partitionCounts capacity floor nodes).getD j 0 := by simp
    by_cases hk : (partitionCounts capacity floor nodes).getD j 0 ≤ 1
    · rw [if_pos (by rw [hlen]; exact hk)]
      unfold seqEdgesOf
      have : (partitionCounts capacity floor nodes).getD j 0 - 1 = 0 := by omega
      rw [this]
      rfl
    · rw [if_neg (by rw [hlen]; exact hk)]
      rw [zip_tail_range_map]
      rw [List.map_map]
      rfl

/-! ## Claim C4: edge re-wiring after partitioning -/

/-- Tuning for the C4 witness. -/
def c4Tuning : Tuning := {}

/-- Nodes for the C4 witness. -/
def c4Nodes : List NodeSpec :=
  [{ domain := .db
     title := "Schema"
     description := "prep"
     instructions := { tasks := ["bootstrap"], contractOps := [] }
     acceptance_criteria := ["tables defined"] },
   { domain := .be
     title := "Service"
     description := "impl"
     instructions := { tasks := ["handlers"], contractOps := [] }
     acceptance_criteria := ["endpoints live"] }]

/-- Edges for the C4 witness. -/
def c4Edges : List EdgeSpec := [⟨0, 1, some "Schema to service", none⟩]

/-- C4: for in-bounds original edges, the rewired edge list of
`plan_budgets` is exactly: for each original edge `(u, v)`, in input order,
one edge from the last partition of `u` (index `startOffset u + count u - 1`)
to the first partition of `v` (index `startOffset v`) carrying the original
edge's description (and artifact type); followed, for each original node
`j` split into partitions `p1..pk`, by the sequential partition-order edges
`p_i -> p_(i+1)` labeled "Partition order for " plus the original node's
title. -/
theorem C4_edge_rewiring (tuning : Tuning) (nodes : List NodeSpec) (edges : List EdgeSpec)
    (h : ∀ e ∈ edges, e.from_index < nodes.length ∧ e.to_index < nodes.length) :
    (plan_budgets tuning nodes edges).edges
      = edges.map (fun e =>
          { from_index :=
              startOffset (planCapacity tuning) tuning.token_budget_floor nodes e.from_index
                + (partitionCounts (planCapacity tuning)
                    tuning.token_budget_floor nodes).getD e.from_index 0 - 1
            to_index := startOffset (planCapacity tuning) tuning.token_budget_floor nodes e.to_index
            description := e.description
            artifact_type := e.artifact_type })
        ++ ((List.range nodes.length).map (fun j =>
            (List.range ((partitionCounts (planCapacity tuning)
                tuning.token_budget_floor nodes).getD j 0 - 1)).map fun t =>
              { from_index := startOffset (planCapacity tuning) tuning.token_budget_floor nodes j + t
                to_index :=
                  startOffset (planCapacity tuning) tuning.token_budget_floor nodes j + t + 1
                description := some ("Partition order for " ++ (nodes.getD j default).title)
                artifact_type := none })).join :=
  rewire_core (planCapacity tuning) tuning.token_budget_floor nodes edges h

/-- Witness for C4 at a concrete graph (stated through the named
`crossEdgeOf` / `seqEdgesOf` forms, which are definitionally the mapped
records of the theorem). -/
theorem C4_edge_rewiring_witness :
    (plan_budgets c4Tuning c4Nodes c4Edges).edges
      = c4Edges.map (crossEdgeOf (planCapacity c4Tuning) c4Tuning.token_budget_floor c4Nodes)
        ++ ((List.range c4Nodes.length).map
            (seqEdgesOf (planCapacity c4Tuning) c4Tuning.token_budget_floor c4Nodes)).join :=
  C4_edge_rewiring c4Tuning c4Nodes c4Edges (by decide)

/-! ## Claim C10: total non-empty mapping, no edge ever dropped -/

theorem seqEdgesOf_length (capacity floor : Nat) (nodes : List NodeSpec) (j : Nat) :
    (seqEdgesOf capacity floor nodes j).length
      = (partitionCounts capacity floor nodes).getD j 0 - 1 := by
  simp [seqEdgesOf]

theorem plan_budgets_nodes_length (capacity floor : Nat) (nodes : List NodeSpec)
    (edges : List EdgeSpec) :
    (plan_budgets_core capacity floor nodes edges).nodes.length
      = (partitionCounts capacity floor nodes).sum := by
  show (accumulateParts (nodes.map fun n => _partition_node n capacity floor) 0).1.length = _
  rw [accumulateParts_fst, List.length_join]
  simp only [partitionCounts, List.map_map]
  congr 1
  apply List.map_congr_left
  intro n _
  simp [Function.comp]

/-- Tuning for the C10 witness. -/
def c10Tuning : Tuning := {}

/-- Node list for the C10 witness. -/
def c10Nodes : List NodeSpec :=
  [{ domain := .fe
     title := "View"
     description := "render"
     instructions := { tasks := ["route"], contractOps := [] }
     acceptance_criteria := ["renders"] }]

/-- Edge list for the C10 witness (a self-loop is in bounds). -/
def c10Edges : List EdgeSpec := [⟨0, 0, none, none⟩]

/-- C10: every original node yields at least one partition (the greedy
fallback returns the node itself as a single part when it produces none),
so `plan_budgets` maps each original index `j` to the non-empty contiguous
output range starting at `startOffset j`; consequently the edge-dropping
branch of `_rewire_edges` is unreachable for in-bounds edges and every
original edge yields exactly one rewired cross-node edge (the output edge
count is the input edge count plus the sequential partition-chain edges). -/
theorem C10_mapping_total_and_no_dropped_edges (tuning : Tuning) (nodes : List NodeSpec)
    (edges : List EdgeSpec)
    (h : ∀ e ∈ edges, e.from_index < nodes.length ∧ e.to_index < nodes.length) :
    (∀ n ∈ nodes,
      _partition_node n (planCapacity tuning) tuning.token_budget_floor ≠ [])
    ∧ (∀ j, j < nodes.length →
        1 ≤ (partitionCounts (planCapacity tuning) tuning.token_budget_floor nodes).getD j 0
        ∧ (accumulateParts (nodes.map fun n =>
              _partition_node n (planCapacity tuning) tuning.token_budget_floor) 0).2.2.get? j
            = some ((List.range ((partitionCounts (planCapacity tuning)
                  tuning.token_budget_floor nodes).getD j 0)).map
                (· + startOffset (planCapacity tuning) tuning.token_budget_floor nodes j)))
    ∧ (plan_budgets tuning nodes edges).edges.length
        = edges.length
          + ((List.range nodes.length).map fun j =>
              (partitionCounts (planCapacity tuning)
                tuning.token_budget_floor nodes).getD j 0 - 1).sum := by
  refine ⟨fun n _ => partition_node_ne_nil n _ _,
    fun j hj => ⟨partitionCounts_pos _ _ _ j hj, plan_budgets_mapping _ _ _ j hj⟩, ?_⟩
  have hE := rewire_core (planCapacity tuning) tuning.token_budget_floor nodes edges h
  show (plan_budgets_core (planCapacity tuning) tuning.token_budget_floor nodes edges).edges.length
    = _
  rw [hE, List.length_append, List.length_map, List.length_join, List.map_map]
  congr 2
  apply List.map_congr_left
  intro j _
  simp only [Function.comp]
  exact seqEdgesOf_length _ _ _ j

/-- Witness for C10 at a concrete graph. -/
theorem C10_mapping_total_and_no_dropped_edges_witness :
    (∀ n ∈ c10Nodes,
      _partition_node n (planCapacity c10Tuning) c10Tuning.token_budget_floor ≠ [])
    ∧ (∀ j, j < c10Nodes.length →
        1 ≤ (partitionCounts (planCapacity c10Tuning) c10Tuning.token_budget_floor c10Nodes).getD j 0
        ∧ (accumulateParts (c10Nodes.map fun n =>
              _partition_node n (planCapacity c10Tuning) c10Tuning.token_budget_floor) 0).2.2.get? j
            = some ((List.range ((partitionCounts (planCapacity c10Tuning)
                  c10Tuning.token_budget_floor c10Nodes).getD j 0)).map
                (· + startOffset (planCapacity c10Tuning) c10Tuning.token_budget_floor c10Nodes j)))
    ∧ (plan_budgets c10Tuning c10Nodes c10Edges).edges.length
        = c10Edges.length
          + ((List.range c10Nodes.length).map fun j =>
              (partitionCounts (planCapacity c10Tuning)
                c10Tuning.token_budget_floor c10Nodes).getD j 0 - 1).sum :=
  C10_mapping_total_and_no_dropped_edges c10Tuning c10Nodes c10Edges (by decide)

/-! ## Claim C9: edge ordering invariants at both stages -/

theorem partitionCounts_length (capacity floor : Nat) (nodes : List NodeSpec) :
    (partitionCounts capacity floor nodes).length = nodes.length := by
  simp [partitionCounts]

theorem startOffset_succ (capacity floor : Nat) (nodes : List NodeSpec) (j : Nat)
    (h : j < nodes.length) :
    startOffset capacity floor nodes (j + 1)
      = startOffset capacity floor nodes j
        + (partitionCounts capacity floor nodes).getD j 0 := by
  have hj : j < (partitionCounts capacity floor nodes).length := by
    rwa [partitionCounts_length]
  unfold startOffset
  rw [List.take_succ, List.sum_append]
  congr 1
  simp [List.getD_eq_getElem?_getD, List.getElem?_eq_getElem hj]

theorem startOffset_mono (capacity floor : Nat) (nodes : List NodeSpec) (u v : Nat)
    (h : u ≤ v) :
    startOffset capacity floor nodes u ≤ startOffset capacity floor nodes v := by
  unfold startOffset
  have ht : (partitionCounts capacity floor nodes).take u
      = ((partitionCounts capacity floor nodes).take v).take u := by
    rw [List.take_take, Nat.min_eq_left h]
  rw [ht]
  exact List.Sublist.sum_le_sum (List.take_sublist _ _) (fun a _ => Nat.zero_le a)

theorem startOffset_top (capacity floor : Nat) (nodes : List NodeSpec) :
    startOffset capacity floor nodes nodes.length
      = (partitionCounts capacity floor nodes).sum := by
  unfold startOffset
  rw [← partitionCounts_length capacity floor nodes, List.take_length]

theorem startOffset_block_le (capacity floor : Nat) (nodes : List NodeSpec) (j : Nat)
    (h : j < nodes.length) :
    startOffset capacity floor nodes j + (partitionCounts capacity floor nodes).getD j 0
      ≤ (partitionCounts capacity floor nodes).sum := by
  rw [← startOffset_succ capacity floor nodes j h, ← startOffset_top capacity floor nodes]
  exact startOffset_mono capacity floor nodes (j + 1) nodes.length h

theorem build_plan_edges_ordered (ing : IngestionResult) :
    ∀ e ∈ (build_plan ing).edges,
      e.from_index < e.to_index ∧ e.to_index < (build_plan ing).nodes.length := by
  intro e he
  by_cases hui : ing.prd.has_ui = true
  · by_cases hfe : build_frontend_nodes ing.contract = []
    · simp only [build_plan, hui, hfe, if_true, ne_eq, not_true_eq_false, if_false,
        List.length_nil, List.mem_append, List.mem_map, List.mem_join, List.mem_range,
        List.length_cons, List.length_append, List.mem_singleton,
        List.not_mem_nil, or_false, false_or] at he ⊢
      rcases he with ((((h1 | h2) | h3) | h4) | h5) | h6
      · obtain ⟨a, ha, rfl⟩ := h1
        refine ⟨?_, ?_⟩ <;> simp <;> omega
      · obtain ⟨l, ⟨a, ha, rfl⟩, hel⟩ := h2
        simp only [List.mem_map, List.mem_range] at hel
        obtain ⟨dbo, hdbo, rfl⟩ := hel
        refine ⟨?_, ?_⟩ <;> simp <;> omega
      · obtain ⟨l, ⟨a, ha, hl⟩, hel⟩ := h3
        exact absurd ha (by omega)
      · obtain ⟨a, ha, rfl⟩ := h4
        refine ⟨?_, ?_⟩ <;> simp <;> omega
      · obtain ⟨a, ha, rfl⟩ := h5
        refine ⟨?_, ?_⟩ <;> simp <;> omega
      · subst h6
        refine ⟨?_, ?_⟩ <;> simp <;> omega
    · simp only [build_plan, hui, if_true, ne_eq, hfe, not_false_eq_true,
        List.length_nil, List.mem_append, List.mem_map, List.mem_join, List.mem_range,
        List.length_cons, List.length_append, List.mem_singleton,
        List.not_mem_nil, or_false, false_or] at he ⊢
      rcases he with (((((h1 | h2) | h3) | h4) | h5) | h6) | h7
      · obtain ⟨a, ha, rfl⟩ := h1
        refine ⟨?_, ?_⟩ <;> simp <;> omega
      · obtain ⟨l, ⟨a, ha, rfl⟩, hel⟩ := h2
        simp only [List.mem_map, List.mem_range] at hel
        obtain ⟨dbo, hdbo, rfl⟩ := hel
        refine ⟨?_, ?_⟩ <;> simp <;> omega
      · obtain ⟨l, ⟨a, ha, rfl⟩, hel⟩ := h3
        simp only [List.mem_map, List.mem_range] at hel
        obtain ⟨beo, hbeo, rfl⟩ := hel
        refine ⟨?_, ?_⟩ <;> simp <;> omega
      · obtain ⟨a, ha, rfl⟩ := h4
        refine ⟨?_, ?_⟩ <;> simp <;> omega
      · obtain ⟨a, ha, rfl⟩ := h5
        refine ⟨?_, ?_⟩ <;> simp <;> omega
      · obtain ⟨a, ha, rfl⟩ := h6
        refine ⟨?_, ?_⟩ <;> simp <;> omega
      · subst h7
        refine ⟨?_, ?_⟩ <;> simp <;> omega
  · simp only [build_plan, hui, if_false, Bool.false_eq_true, ne_eq, not_true_eq_false,
      List.length_nil, List.mem_append, List.mem_map, List.mem_join, List.mem_range,
      List.length_cons, List.length_append, List.mem_singleton,
      List.not_mem_nil, or_false, false_or] at he ⊢
    rcases he with (((h1 | h2) | h4) | h6) | h7
    · obtain ⟨a, ha, rfl⟩ := h1
      refine ⟨?_, ?_⟩ <;> simp <;> omega
    · obtain ⟨l, ⟨a, ha, rfl⟩, hel⟩ := h2
      simp only [List.mem_map, List.mem_range] at hel
      obtain ⟨dbo, hdbo, rfl⟩ := hel
      refine ⟨?_, ?_⟩ <;> simp <;> omega
    · obtain ⟨a, ha, rfl⟩ := h4
      refine ⟨?_, ?_⟩ <;> simp <;> omega
    · obtain ⟨a, ha, rfl⟩ := h6
      refine ⟨?_, ?_⟩ <;> simp <;> omega
    · subst h7
      refine ⟨?_, ?_⟩ <;> simp <;> omega

theorem rewired_edges_ordered (tuning : Tuning) (nodes : List NodeSpec) (edges : List EdgeSpec)
    (h : ∀ e ∈ edges, e.from_index < e.to_index ∧ e.to_index < nodes.length) :
    ∀ e ∈ (plan_budgets tuning nodes edges).edges,
      e.from_index < e.to_index
        ∧ e.to_index < (plan_budgets tuning nodes edges).nodes.length := by
  intro e' he'
  have hb : ∀ e ∈ edges, e.from_index < nodes.length ∧ e.to_index < nodes.length := by
    intro e hee
    obtain ⟨h1, h2⟩ := h e hee
    exact ⟨by omega, h2⟩
  have hE : (plan_budgets tuning nodes edges).edges
      = edges.map (crossEdgeOf (planCapacity tuning) tuning.token_budget_floor nodes)
        ++ ((List.range nodes.length).map
            (seqEdgesOf (planCapacity tuning) tuning.token_budget_floor nodes)).join :=
    rewire_core (planCapacity tuning) tuning.token_budget_floor nodes edges hb
  have hN : (plan_budgets tuning nodes edges).nodes.length
      = (partitionCounts (planCapacity tuning) tuning.token_budget_floor nodes).sum :=
    plan_budgets_nodes_length (planCapacity tuning) tuning.token_budget_floor nodes edges
  rw [hE] at he'
  rw [hN]
  rcases List.mem_append.mp he' with hcr | hsq
  · obtain ⟨e, hee, rfl⟩ := List.mem_map.mp hcr
    obtain ⟨h1, h2⟩ := h e hee
    have hu : e.from_index < nodes.length := by omega
    have hsu := startOffset_succ (planCapacity tuning) tuning.token_budget_floor nodes
      e.from_index hu
    have hmono := startOffset_mono (planCapacity tuning) tuning.token_budget_floor nodes
      (e.from_index + 1) e.to_index (by omega)
    have hku := partitionCounts_pos (planCapacity tuning) tuning.token_budget_floor nodes
      e.from_index hu
    have hkv := partitionCounts_pos (planCapacity tuning) tuning.token_budget_floor nodes
      e.to_index h2
    have hbl := startOffset_block_le (planCapacity tuning) tuning.token_budget_floor nodes
      e.to_index h2
    refine ⟨?_, ?_⟩ <;> simp only [crossEdgeOf] <;> omega
  · obtain ⟨L, hL, heL⟩ := List.mem_join.mp hsq
    obtain ⟨j, hj, rfl⟩ := List.mem_map.mp hL
    rw [List.mem_range] at hj
    simp only [seqEdgesOf, List.mem_map, List.mem_range] at heL
    obtain ⟨t, ht, rfl⟩ := heL
    have hkj := partitionCounts_pos (planCapacity tuning) tuning.token_budget_floor nodes j hj
    have hbl := startOffset_block_le (planCapacity tuning) tuning.token_budget_floor nodes j hj
    refine ⟨?_, ?_⟩ <;> simp <;> omega

/-- Ingestion input for the C9 witness. -/
def c9Ing : IngestionResult :=
  { prd := { text := "", headings := [], glossary := [], constraints := [], has_ui := false }
    contract := { raw := "", operations := [], schemas := [], hash := "c9" } }

/-- Tuning for the C9 witness. -/
def c9Tuning : Tuning := {}

/-- Node list for the C9 witness. -/
def c9Nodes : List NodeSpec :=
  [{ domain := .db
     title := "First"
     description := "one"
     instructions := { tasks := [], contractOps := [] }
     acceptance_criteria := [] },
   { domain := .test
     title := "Second"
     description := "two"
     instructions := { tasks := [], contractOps := [] }
     acceptance_criteria := [] }]

/-- Edge list for the C9 witness. -/
def c9Edges : List EdgeSpec := [⟨0, 1, some "first to second", none⟩]

/-- C9: every edge of the assembled graph, and (for an input graph whose
edges already point strictly forward and stay in bounds, as the
assembler's does) every edge of the partitioner-rewired graph, goes from a
strictly lower node index to a strictly higher one and stays within the
current node list's bounds — the forward-pointing order that makes both
graphs acyclic by construction. -/
theorem C9_edge_order_invariant (tuning : Tuning) (ingestion : IngestionResult)
    (nodes : List NodeSpec) (edges : List EdgeSpec)
    (h : ∀ e ∈ edges, e.from_index < e.to_index ∧ e.to_index < nodes.length) :
    (∀ e ∈ (build_plan ingestion).edges,
        e.from_index < e.to_index ∧ e.to_index < (build_plan ingestion).nodes.length)
    ∧ (∀ e ∈ (plan_budgets tuning nodes edges).edges,
        e.from_index < e.to_index
          ∧ e.to_index < (plan_budgets tuning nodes edges).nodes.length) :=
  ⟨build_plan_edges_ordered ingestion, rewired_edges_ordered tuning nodes edges h⟩

/-- Witness for C9 at a concrete ingestion and a concrete graph. -/
theorem C9_edge_order_invariant_witness :
    (∀ e ∈ (build_plan c9Ing).edges,
        e.from_index < e.to_index ∧ e.to_index < (build_plan c9Ing).nodes.length)
    ∧ (∀ e ∈ (plan_budgets c9Tuning c9Nodes c9Edges).edges,
        e.from_index < e.to_index
          ∧ e.to_index < (plan_budgets c9Tuning c9Nodes c9Edges).nodes.length) :=
  C9_edge_order_invariant c9Tuning c9Ing c9Nodes c9Edges (by decide)

/-! ## Claim C2: which graph the complexity scorer sees -/

theorem compute_complexity_length (tuning : Tuning) (nodes : List NodeSpec)
    (edges : List EdgeSpec) :
    (compute_complexity tuning nodes edges).length = nodes.length := by
  simp [compute_complexity]

/-- A tuning whose capacity (162) is below the assembler's base node
budgets, so the partitioner genuinely splits the assembled nodes. -/
def c2Tuning : Tuning :=
  { window_headroom_pct := 1/10
    default_model_window := 180
    token_budget_floor := 1 }

/-- An empty ingestion: the assembler then emits exactly the repository,
test and package nodes. -/
def c2Ing : IngestionResult :=
  { prd := { text := "", headings := [], glossary := [], constraints := [], has_ui := false }
    contract := { raw := "", operations := [], schemas := [], hash := "c2" } }

/-- C2 (refuting evaluation): `create_plan` scores `build.nodes` /
`build.edges` — the pre-partition assembler graph — and also persists that
graph, while the partitioner's output graph (here 9 nodes, against the
assembler's 3) is discarded: the stored complexity list cannot be
`compute_complexity` of the final partitioned graph, whose entry count
would be the final node count. -/
theorem C2_scorer_on_prepartition_graph :
    ∃ p, create_plan c2Tuning c2Ing = Except.ok p
      ∧ p.complexities
          = compute_complexity c2Tuning (build_plan c2Ing).nodes (build_plan c2Ing).edges
      ∧ p.persisted_nodes = (build_plan c2Ing).nodes
      ∧ p.persisted_edges = (build_plan c2Ing).edges
      ∧ (build_plan c2Ing).nodes.length = 3
      ∧ p.budget.nodes.length = 9
      ∧ p.complexities.length
          ≠ (compute_complexity c2Tuning p.budget.nodes p.budget.edges).length := by
  have hcap : planCapacity c2Tuning = 162 := by
    norm_num [planCapacity, c2Tuning]
    decide
  have hpb : plan_budgets c2Tuning (build_plan c2Ing).nodes []
      = plan_budgets_core 162 1 (build_plan c2Ing).nodes [] := by
    unfold plan_budgets
    rw [hcap]
    rfl
  have hok : create_plan c2Tuning c2Ing = Except.ok
      { budget := plan_budgets c2Tuning (build_plan c2Ing).nodes []
        complexities := compute_complexity c2Tuning (build_plan c2Ing).nodes
          (build_plan c2Ing).edges
        coverage := createPlanCoverage c2Ing
        persisted_nodes := (build_plan c2Ing).nodes
        persisted_edges := (build_plan c2Ing).edges
        persisted_token_budgets :=
          (List.range (build_plan c2Ing).nodes.length).map fun idx =>
            (plan_budgets c2Tuning (build_plan c2Ing).nodes []).budget.budgets.getD idx 0
        token_cost := (plan_budgets c2Tuning (build_plan c2Ing).nodes []).budget.budgets.sum
        score := (((compute_complexity c2Tuning (build_plan c2Ing).nodes
            (build_plan c2Ing).edges).map (·.ccs)).sum)
          / max ((compute_complexity c2Tuning (build_plan c2Ing).nodes
            (build_plan c2Ing).edges).length : ℚ) 1 } := by
    rw [create_plan_def]
    rw [if_neg (by decide)]
  have hnine : (plan_budgets c2Tuning (build_plan c2Ing).nodes []).nodes.length = 9 := by
    rw [hpb]
    decide
  refine ⟨_, hok, rfl, rfl, rfl, by decide, hnine, ?_⟩
  show (compute_complexity c2Tuning (build_plan c2Ing).nodes (build_plan c2Ing).edges).length
    ≠ (compute_complexity c2Tuning
        (plan_budgets c2Tuning (build_plan c2Ing).nodes []).nodes
        (plan_budgets c2Tuning (build_plan c2Ing).nodes []).edges).length
  rw [compute_complexity_length, compute_complexity_length, hnine]
  decide

end TaskMaster
